import Mathlib

/-!
# Basic-Shell: the job table of `main.c`

A shallow embedding of the job-control code of `src/main.c`.

* A `job *` is an address (`Ptr`); `NULL` is `none`.  The `malloc`ed job
  records live in `Shell.heap`; `free` removes the record, so a pointer that
  survives its record is dangling and dereferencing it is undefined.
* `bg_list` is the array of `MAX_JOBS` pointers, `num_bg_jobs` the counter.
* Functions that dereference pointers or index the array return `Option`:
  `none` is undefined behaviour (NULL or dangling dereference, index outside
  the array, double free).
* Results of system calls (`fork`, `malloc`, `getcwd`, `chdir`, `waitpid`)
  are inputs of the model (`Env`, and the list of `waitpid` results); the
  calls the shell makes are recorded in `Shell.trace`.
* `int` and `pid_t` are `Int`, without wrap-around: the only arithmetic on them
  is `job_num + 1` in `assign_job_num` and the steps of the counter, and a job
  number reaches `INT_MAX` only after more than 2^31 launches, where the
  behaviour of the C code is undefined.  Fixed-size text buffers are assumed
  large enough, and `malloc` is assumed to succeed.
* A loop `for (i = a; i < b; i++)` is a recursion whose first argument counts
  the iterations left; the `while` loop of `kill_all_jobs` has no such bound and
  takes a `fuel` argument (`Outcome.unfinished` when it runs out).
-/

namespace BasicShell

/-! ## Definitions -/

/-! ### Constants and data -/

/-- The constant `MAX_JOBS`. -/
def MAX_JOBS : Nat := 5

/-- The constant `MAX_INPUT_PARAMETERS`. -/
def MAX_INPUT_PARAMETERS : Nat := 10

/-- The constant `TRUE`. -/
def TRUE : Int := 1

/-- The constant `FALSE`. -/
def FALSE : Int := 0

/-- Address of a `malloc`ed job record. -/
abbrev Ptr := Nat

/-- The record `struct job`. -/
structure job where
  args : List String
  dir : String
  pid : Int
  pgid : Int
  status : Int
  job_num : Int
  foreground : Int
deriving DecidableEq

/-- Signals the shell sends. -/
inductive Signal where
  | SIGKILL
  | SIGTSTP
  | SIGCONT
deriving DecidableEq

/-- Observable actions of the shell process, in the order performed. -/
inductive Event where
  | stdout (text : String)
  | perror (msg : String)
  | fork (ret : Int)
  | kill (pid : Int) (sig : Signal)
  | setpgid (pid pgid : Int)
  | wait
  | chdir (path : String)
deriving DecidableEq

/-- The global variables of the shell, the job heap and the actions so far. -/
structure Shell where
  heap : Ptr → Option job
  bg_list : List (Option Ptr)
  num_bg_jobs : Int
  shell_is_interactive : Int
  current_directory : String
  trace : List Event

/-- What the operating system answers during one command. -/
structure Env where
  cwd : String
  home : String
  chdir_ret : Int
  malloc_ret : Ptr
  junk : job
  fork_ret : Int

/-- How a call of shell code ends. -/
inductive Outcome where
  | running (s : Shell)
  | exited (code : Int) (s : Shell)
  | child (s : Shell)
  | undefined
  | unfinished

/-- The globals when `main` enters its loop: zero-initialised statics,
`num_bg_jobs = 0`; `init_shell` is never called. -/
def main_init : Shell :=
  { heap := fun _ => none
    bg_list := List.replicate MAX_JOBS none
    num_bg_jobs := 0
    shell_is_interactive := 0
    current_directory := ""
    trace := [] }

/-! ### Memory access -/

/-- Reading `bg_list[i]`. -/
def rd (bg : List (Option Ptr)) (i : Nat) : Option (Option Ptr) :=
  bg.get? i

/-- Writing `bg_list[i] = v`. -/
def wr (bg : List (Option Ptr)) (i : Nat) (v : Option Ptr) : Option (List (Option Ptr)) :=
  if i < bg.length then some (bg.set i v) else none

/-- Dereferencing a job pointer. -/
def deref (s : Shell) (p : Option Ptr) : Option job :=
  match p with
  | none => none
  | some a => s.heap a

/-- The access `bg_list[i]->...`. -/
def job_at (s : Shell) (i : Nat) : Option job :=
  match rd s.bg_list i with
  | some p => deref s p
  | none => none

/-- Storing a record through a valid pointer. -/
def store (s : Shell) (p : Ptr) (r : job) : Shell :=
  { s with heap := fun q => if q = p then some r else s.heap q }

/-- Appending an action to the trace. -/
def emit (s : Shell) (e : Event) : Shell :=
  { s with trace := s.trace ++ [e] }

/-! ### The functions of `main.c` -/

/-- The function `display_shell` with a message: `getcwd` into
`current_directory`, then `printf("shell: %s > %s\n", ...)`. -/
def display_shell (env : Env) (str : String) (s : Shell) : Shell :=
  emit { s with current_directory := env.cwd }
    (Event.stdout ("shell: " ++ env.cwd ++ " > " ++ str ++ "\n"))

/-- The function `display_shell(NULL)`: `getcwd` into `current_directory`
before the prompt is read. -/
def display_prompt (cwd : String) (s : Shell) : Shell :=
  { s with current_directory := cwd }

/-- The loop of `assign_job_num`; the first argument counts the iterations left,
`i` is the loop index and `highest` the running value. -/
def highest_loop (s : Shell) : Nat → Nat → Int → Option Int
  | 0, _, highest => some highest
  | k + 1, i, highest =>
    match job_at s i with
    | none => none
    | some r =>
      highest_loop s k (i + 1) (if r.job_num ≥ highest then r.job_num + 1 else highest)

/-- The function `assign_job_num`. -/
def assign_job_num (j : Ptr) (s : Shell) : Option Shell :=
  match highest_loop s s.num_bg_jobs.toNat 0 0 with
  | none => none
  | some highest =>
    match s.heap j with
    | none => none
    | some r => some (store s j { r with job_num := highest })

/-- The function `build_job`: the record is `malloc`ed at `env.malloc_ret` with
contents `env.junk`, then filled in. -/
def build_job (env : Env) (args : List String) (fg : Int) (s : Shell) : Option (Ptr × Shell) :=
  match args with
  | [] => none
  | a0 :: rest =>
    let jargs := if a0 = "bg" then rest.take (MAX_INPUT_PARAMETERS - 1) else args
    let r : job :=
      { env.junk with args := jargs, dir := s.current_directory, foreground := fg, pgid := 0 }
    match assign_job_num env.malloc_ret (store s env.malloc_ret r) with
    | none => none
    | some s1 => some (env.malloc_ret, s1)

/-- The function `free_job`. -/
def free_job (j : Option Ptr) (s : Shell) : Option Shell :=
  match j with
  | none => none
  | some p =>
    match s.heap p with
    | none => none
    | some _ => some { s with heap := fun q => if q = p then none else s.heap q }

/-- First loop of `remove_job`: clear the first of the `num_bg_jobs` slots that
holds `j`. -/
def remove_find (j : Option Ptr) : Nat → Nat → List (Option Ptr) → Option (List (Option Ptr))
  | 0, _, bg => some bg
  | k + 1, i, bg =>
    match rd bg i with
    | none => none
    | some x => if j = x then wr bg i none else remove_find j k (i + 1) bg

/-- Inner loop of `remove_job`: `for (p = i; p < MAX_JOBS-1; p++) bg_list[p] = bg_list[p+1]`;
the first argument counts the iterations left. -/
def shift_down : Nat → Nat → List (Option Ptr) → Option (List (Option Ptr))
  | 0, _, bg => some bg
  | k + 1, p, bg =>
    match rd bg (p + 1) with
    | none => none
    | some x =>
      match wr bg p x with
      | none => none
      | some bg1 => shift_down k (p + 1) bg1

/-- Second loop of `remove_job`: `for (i = MAX_JOBS-1; i >= 0; i--)`; the first
argument is `i + 1`. -/
def compact : Nat → Bool → List (Option Ptr) → Option (List (Option Ptr))
  | 0, _, bg => some bg
  | i + 1, prev, bg =>
    match rd bg i with
    | none => none
    | some (some _) => compact i true bg
    | some none =>
      if prev then
        match shift_down (MAX_JOBS - 1 - i) i bg with
        | none => none
        | some bg1 => compact i prev bg1
      else compact i prev bg

/-- The function `remove_job`. -/
def remove_job (j : Option Ptr) (s : Shell) : Option Shell :=
  match remove_find j s.num_bg_jobs.toNat 0 s.bg_list with
  | none => none
  | some bg1 =>
    match compact MAX_JOBS false bg1 with
    | none => none
    | some bg2 => free_job j { s with bg_list := bg2, num_bg_jobs := s.num_bg_jobs - 1 }

/-- The loop `for (i = 0; i < num_bg_jobs; i++) if (test(bg_list[i])) return ...`
shared by `job_exists`, `get_job_num_by_pid` and `get_job_by_num`; the first
argument counts the iterations left.  Result `some none`: the loop ran out. -/
def scan_jobs (s : Shell) (test : job → Bool) : Nat → Nat → Option (Option (Ptr × job))
  | 0, _ => some none
  | k + 1, i =>
    match rd s.bg_list i with
    | some (some p) =>
      match s.heap p with
      | none => none
      | some r => if test r then some (some (p, r)) else scan_jobs s test k (i + 1)
    | _ => none

/-- The function `job_exists`. -/
def job_exists (job_num : Int) (s : Shell) : Option Bool :=
  match scan_jobs s (fun r => job_num = r.job_num) s.num_bg_jobs.toNat 0 with
  | none => none
  | some none => some false
  | some (some _) => some true

/-- The function `get_job_num_by_pid`. -/
def get_job_num_by_pid (pid : Int) (s : Shell) : Option Int :=
  match scan_jobs s (fun r => pid = r.pid) s.num_bg_jobs.toNat 0 with
  | none => none
  | some none => some (-1)
  | some (some (_, r)) => some r.job_num

/-- The function `get_job_by_num`: the pointer found (or `NULL`) and the state
after the message it may print. -/
def get_job_by_num (env : Env) (job_num : Int) (s : Shell) : Option (Option Ptr × Shell) :=
  match job_exists job_num s with
  | none => none
  | some false =>
    some (none, display_shell env ("Job " ++ toString job_num ++ " doesnt exist") s)
  | some true =>
    match scan_jobs s (fun r => job_num = r.job_num) s.num_bg_jobs.toNat 0 with
    | none => none
    | some none => some (none, s)
    | some (some (p, _)) => some (some p, s)

/-- The function `kill_all_jobs`; `fuel` bounds the iterations of the `while` loop. -/
def kill_all_jobs : Nat → Shell → Outcome
  | 0, _ => Outcome.unfinished
  | fuel + 1, s =>
    match rd s.bg_list 0 with
    | none => Outcome.undefined
    | some none => Outcome.running s
    | some (some p) =>
      match s.heap p with
      | none => Outcome.undefined
      | some r =>
        match remove_job (some p) (emit s (Event.kill r.pid Signal.SIGKILL)) with
        | none => Outcome.undefined
        | some s1 => kill_all_jobs fuel s1

/-- The function `update_list`; `rets` are the successive results of
`waitpid(-1, &status, WNOHANG)`, after the last of which it returns no pid. -/
def update_list (env : Env) : List Int → Shell → Option Shell
  | [], s => some s
  | cpid :: rets, s =>
    if cpid > 0 then
      match get_job_num_by_pid cpid s with
      | none => none
      | some job_num =>
        if job_num = -1 then some s
        else
          match get_job_by_num env job_num s with
          | none => none
          | some (j, s1) =>
            match remove_job j (emit s1 (Event.stdout ("Job " ++ toString job_num ++ " finished\n"))) with
            | none => none
            | some s2 => update_list env rets s2
    else some s

/-- The function `status`. -/
def status (status : Int) : Char :=
  if status ≠ 0 then 'r' else 's'

/-- The function `execute_job`. -/
def execute_job (env : Env) (j : Ptr) (s : Shell) : Outcome :=
  match s.heap j with
  | none => Outcome.undefined
  | some r0 =>
    let inserted : Option Shell :=
      if r0.foreground = 0 then
        if s.num_bg_jobs < 0 then none
        else
          match wr s.bg_list s.num_bg_jobs.toNat (some j) with
          | none => none
          | some bg => some { s with bg_list := bg, num_bg_jobs := s.num_bg_jobs + 1 }
      else some s
    match inserted with
    | none => Outcome.undefined
    | some s1 =>
      let r1 : job := { r0 with status := TRUE }
      let s2 := emit (store s1 j r1) (Event.fork env.fork_ret)
      let pid := env.fork_ret
      if pid = 0 then Outcome.child s2
      else if pid < 0 then Outcome.exited 1 (emit s2 (Event.perror "fork"))
      else
        let r2 : job := { r1 with pid := pid, status := -1 }
        let r3 : job := if s.shell_is_interactive ≠ 0 then
            (if r2.pgid = 0 then { r2 with pgid := pid } else r2) else r2
        let s3 := store s2 j r3
        let s4 := if s.shell_is_interactive ≠ 0 then emit s3 (Event.setpgid pid r3.pgid) else s3
        if r3.foreground ≠ 0 then Outcome.running (emit s4 Event.wait) else Outcome.running s4

/-- Decimal digits read by `atoi`. -/
def atoi_digits : List Char → Int → Int
  | [], acc => acc
  | c :: cs, acc =>
    if '0' ≤ c ∧ c ≤ '9' then atoi_digits cs (acc * 10 + ((c.toNat : Int) - 48)) else acc

/-- The C library's `isspace`. -/
def isspace (c : Char) : Bool :=
  c = ' ' || c = '\t' || c = '\n' || c = '\x0b' || c = '\x0c' || c = '\r'

/-- The C library's `atoi`. -/
def atoi (str : String) : Int :=
  match str.data.dropWhile isspace with
  | '-' :: cs => - atoi_digits cs 0
  | '+' :: cs => atoi_digits cs 0
  | cs => atoi_digits cs 0

/-- The command name shown by `bglist`: `args[0]` without a leading `./`. -/
def strip_dot_slash (t : String) : String :=
  match t.data with
  | '.' :: '/' :: cs => String.mk cs
  | _ => t

/-- The loop of the `bglist` branch; the first argument counts the iterations left. -/
def bglist_loop : Nat → Nat → Shell → Option Shell
  | 0, _, s => some s
  | k + 1, i, s =>
    match job_at s i with
    | none => none
    | some r =>
      match r.args with
      | [] => none
      | t :: _ =>
        bglist_loop k (i + 1)
          (emit s (Event.stdout (toString r.job_num ++ "[" ++ String.singleton (status r.status)
            ++ "]:  " ++ r.dir ++ "/" ++ strip_dot_slash t ++ "\n")))

/-- Lifting a possibly undefined state to an outcome. -/
def Outcome.ofOption (o : Option Shell) : Outcome :=
  match o with
  | none => Outcome.undefined
  | some s => Outcome.running s

/-- The function `run_commands`; `fuel` bounds the loop of `kill_all_jobs` in the
`exit` branch. -/
def run_commands (fuel : Nat) (env : Env) (args : List String) (s : Shell) : Outcome :=
  match args with
  | [] => Outcome.undefined
  | a0 :: rest =>
    if a0 = "exit" then
      match kill_all_jobs fuel s with
      | Outcome.running s1 => Outcome.exited 0 s1
      | o => o
    else if a0 = "cd" then
      match rest with
      | [] => Outcome.running (emit s (Event.chdir env.home))
      | a1 :: _ =>
        if a1 = "~" then Outcome.running (emit s (Event.chdir env.home))
        else if env.chdir_ret = -1 then
          Outcome.running (display_shell env ("No such directory " ++ a1) (emit s (Event.chdir a1)))
        else Outcome.running (emit s (Event.chdir a1))
    else if a0 = "bg" then
      if s.num_bg_jobs ≥ MAX_JOBS then
        Outcome.running (display_shell env "Maximum amount of background jobs already active" s)
      else
        match build_job env args FALSE s with
        | none => Outcome.undefined
        | some (j, s1) => execute_job env j s1
    else if a0 = "bglist" then
      match bglist_loop s.num_bg_jobs.toNat 0 s with
      | none => Outcome.undefined
      | some s1 =>
        Outcome.running
          (emit s1 (Event.stdout ("Total background jobs: " ++ toString s.num_bg_jobs ++ "\n")))
    else if a0 = "bgkill" then
      match rest with
      | [] => Outcome.running (display_shell env "No job specified" s)
      | a1 :: _ =>
        let n := atoi a1
        match get_job_by_num env n s with
        | none => Outcome.undefined
        | some (j, s1) =>
          match job_exists n s1 with
          | none => Outcome.undefined
          | some true =>
            match deref s1 j with
            | none => Outcome.undefined
            | some r =>
              if r.pid ≠ 0 then
                Outcome.ofOption (remove_job j (emit s1 (Event.kill r.pid Signal.SIGKILL)))
              else Outcome.running s1
          | some false =>
            Outcome.running (display_shell env ("Job " ++ toString n ++ " doesnt exist") s1)
    else if a0 = "stop" then
      match rest with
      | [] => Outcome.running (display_shell env "No job specified" s)
      | a1 :: _ =>
        let n := atoi a1
        match job_exists n s with
        | none => Outcome.undefined
        | some true =>
          match get_job_by_num env n s with
          | some (some p, s1) =>
            match s1.heap p with
            | none => Outcome.undefined
            | some r =>
              Outcome.running
                (emit (store s1 p { r with status := FALSE }) (Event.kill r.pid Signal.SIGTSTP))
          | _ => Outcome.undefined
        | some false =>
          Outcome.running (display_shell env ("Job " ++ toString n ++ " doesnt exist") s)
    else if a0 = "start" then
      match rest with
      | [] => Outcome.running (display_shell env "No job specified" s)
      | a1 :: _ =>
        let n := atoi a1
        match job_exists n s with
        | none => Outcome.undefined
        | some true =>
          match get_job_by_num env n s with
          | some (some p, s1) =>
            match s1.heap p with
            | none => Outcome.undefined
            | some r =>
              Outcome.running
                (emit (store s1 p { r with status := TRUE }) (Event.kill r.pid Signal.SIGCONT))
          | _ => Outcome.undefined
        | some false =>
          Outcome.running (display_shell env ("Job " ++ toString n ++ " doesnt exist") s)
    else
      match build_job env args TRUE s with
      | none => Outcome.undefined
      | some (j, s1) =>
        match execute_job env j s1 with
        | Outcome.running s2 => Outcome.ofOption (free_job (some j) s2)
        | o => o

/-- The delimiters `" \n"` given to `strtok`. -/
def is_delim (c : Char) : Bool :=
  c = ' ' || c = '\n'

/-- The `strtok` loop of `format_args`: `cur` is the token read so far. -/
def tokens : List Char → List Char → List String
  | [], cur => if cur = [] then [] else [String.mk cur]
  | c :: cs, cur =>
    if is_delim c then
      (if cur = [] then tokens cs [] else String.mk cur :: tokens cs [])
    else tokens cs (cur ++ [c])

/-- The function `format_args`. -/
def format_args (buffer : String) : List String :=
  tokens buffer.data []

/-- One round of the loop of `main`: prompt, command, reaper. -/
def main_iteration (fuel : Nat) (env : Env) (rets : List Int) (buffer : String) (s : Shell) :
    Outcome :=
  match buffer.data with
  | [] => Outcome.ofOption (update_list env rets (display_prompt env.cwd s))
  | _ :: _ =>
    match run_commands fuel env (format_args buffer) (display_prompt env.cwd s) with
    | Outcome.running s1 => Outcome.ofOption (update_list env rets s1)
    | o => o

/-! ### Reachable states -/

/-- The states of the shell: from the start of `main`, any sequence of prompts,
commands that return to the main loop, and polls of the reaper.  The address
`malloc` returns is not that of a record still allocated. -/
inductive Reachable : Shell → Prop where
  | init : Reachable main_init
  | prompt (s : Shell) (cwd : String) : Reachable s → Reachable (display_prompt cwd s)
  | command (s s2 : Shell) (fuel : Nat) (env : Env) (args : List String) :
      Reachable s → s.heap env.malloc_ret = none →
      run_commands fuel env args s = Outcome.running s2 → Reachable s2
  | reap (s s2 : Shell) (env : Env) (rets : List Int) :
      Reachable s → update_list env rets s = some s2 → Reachable s2

/-- The state `s2` is reached from `s` by prompts, commands and polls of the
reaper, none of which is a `bg` launch that is assigned the job number `n`. -/
inductive Avoids (n : Int) : Shell → Shell → Prop where
  | refl (s : Shell) : Avoids n s s
  | prompt (s s1 : Shell) (cwd : String) : Avoids n s s1 → Avoids n s (display_prompt cwd s1)
  | command (s s1 s2 : Shell) (fuel : Nat) (env : Env) (args : List String) :
      Avoids n s s1 → s1.heap env.malloc_ret = none →
      run_commands fuel env args s1 = Outcome.running s2 →
      ¬ (args.head? = some "bg" ∧ s1.num_bg_jobs < MAX_JOBS ∧
          highest_loop s1 s1.num_bg_jobs.toNat 0 0 = some n) →
      Avoids n s s2
  | reap (s s1 s2 : Shell) (env : Env) (rets : List Int) :
      Avoids n s s1 → update_list env rets s1 = some s2 → Avoids n s s2

/-! ### The live jobs and the invariant of the table -/

/-- The pointers in the first `num_bg_jobs` slots of `bg_list`. -/
def Shell.live_ptrs (s : Shell) : List Ptr :=
  (s.bg_list.take s.num_bg_jobs.toNat).reduceOption

/-- The live jobs: the records behind the first `num_bg_jobs` slots, in slot order. -/
def Shell.live (s : Shell) : List job :=
  s.live_ptrs.filterMap s.heap

/-- The state's table is the cells `js` (pointer and record), in order, followed
by the slots `rest` beyond the counter. -/
structure Rep (s : Shell) (js : List (Ptr × job)) (rest : List (Option Ptr)) : Prop where
  bg : s.bg_list = js.map (fun c => some c.1) ++ rest
  num : s.num_bg_jobs = js.length
  len : js.length + rest.length = MAX_JOBS
  heap : ∀ c ∈ js, s.heap c.1 = some c.2
  ptrs : (js.map Prod.fst).Nodup
  tail : (∀ t ∈ rest, t = none) ∨ (∀ t ∈ rest, t ≠ none)

/-- Properties of the records of live jobs. -/
structure Good (js : List (Ptr × job)) : Prop where
  nums : (js.map (fun c => c.2.job_num)).Nodup
  nonneg : ∀ c ∈ js, 0 ≤ c.2.job_num
  pids : ∀ c ∈ js, 0 < c.2.pid

/-- The invariant of the job table. -/
def Inv (s : Shell) : Prop :=
  ∃ js rest, Rep s js rest ∧ Good js

/-- Frame of an operation on the table: which globals other than the table it keeps. -/
def SameMisc (s s2 : Shell) : Prop :=
  s2.shell_is_interactive = s.shell_is_interactive ∧
  s2.current_directory = s.current_directory

/-- The value `assign_job_num` computes from the numbers of the live jobs, in
table order. -/
def next_num (nums : List Int) (highest : Int) : Int :=
  nums.foldl (fun h n => if n ≥ h then n + 1 else h) highest

/-- The record of a background job after a successful launch. -/
def launched (env : Env) (cmd : List String) (s : Shell) (num : Int) : job :=
  { args := cmd.take (MAX_INPUT_PARAMETERS - 1)
    dir := s.current_directory
    pid := env.fork_ret
    pgid := if s.shell_is_interactive ≠ 0 then env.fork_ret else 0
    status := -1
    job_num := num
    foreground := 0 }

/-- The cell of pointer `p` with its status field overwritten. -/
def set_status (p : Ptr) (v : Int) (c : Ptr × job) : Ptr × job :=
  if c.1 = p then (c.1, { c.2 with status := v }) else c

/-- The words `run_commands` treats as built-in commands. -/
def builtins : List String :=
  ["exit", "cd", "bg", "bglist", "bgkill", "stop", "start"]

/-- What one command does to the live cells `js`: the new table is again
well-formed, and every job number in it was there before or is the one a `bg`
launch has just been assigned. -/
def StepOK (args : List String) (s : Shell) (js : List (Ptr × job)) (s2 : Shell) : Prop :=
  ∃ js2 rest2, Rep s2 js2 rest2 ∧ Good js2 ∧
    ∀ m ∈ js2.map (fun c => c.2.job_num), m ∈ js.map (fun c => c.2.job_num) ∨
      (args.head? = some "bg" ∧ s.num_bg_jobs < MAX_JOBS ∧
        m = next_num (js.map (fun c => c.2.job_num)) 0)

/-- The line `update_list` prints for pid `p` when a job in `live` has that pid. -/
def announce (live : List job) (p : Int) : Option Event :=
  (live.find? (fun r => decide (p = r.pid))).map
    (fun r => Event.stdout ("Job " ++ toString r.job_num ++ " finished\n"))

/-- The spec's rule for a new job number: the smallest non-negative integer
that is not the number of a live job. -/
def smallest_unused (nums : List Int) (n : Int) : Prop :=
  0 ≤ n ∧ n ∉ nums ∧ ∀ m : Int, 0 ≤ m → m ∉ nums → n ≤ m

/-! ### Sample states -/

/-- The state an outcome carries. -/
def Outcome.state : Outcome → Shell
  | Outcome.running s => s
  | Outcome.exited _ s => s
  | Outcome.child s => s
  | Outcome.undefined => main_init
  | Outcome.unfinished => main_init

/-- A sample environment: `malloc` returns `addr`, `fork` returns `pid`. -/
def demo_env (addr : Ptr) (pid : Int) : Env :=
  { cwd := "/home/user"
    home := "/home/user"
    chdir_ret := 0
    malloc_ret := addr
    junk := { args := [], dir := "", pid := 0, pgid := 0, status := 0, job_num := 0, foreground := 0 }
    fork_ret := pid }

/-- The state after one command in a sample environment. -/
def demo_run (addr : Ptr) (pid : Int) (args : List String) (s : Shell) : Shell :=
  (run_commands 0 (demo_env addr pid) args s).state

/-- One job launched from the start of `main`: number 0, pid 1001. -/
def table1 : Shell := demo_run 101 1001 ["bg", "sleep", "50"] main_init

/-- Two jobs: numbers 0 and 1. -/
def table2 : Shell := demo_run 102 1002 ["bg", "sleep", "60"] table1

/-- Three jobs: numbers 0, 1 and 2. -/
def table3 : Shell := demo_run 103 1003 ["bg", "sleep", "70"] table2

/-- Four jobs: numbers 0 to 3. -/
def table4 : Shell := demo_run 104 1004 ["bg", "sleep", "80"] table3

/-- A full table: five jobs, numbers 0 to 4, pids 1001 to 1005. -/
def table5 : Shell := demo_run 105 1005 ["bg", "sleep", "90"] table4

/-- Three jobs 0, 1, 2 launched, then `bgkill 0`. -/
def killed0 : Shell := demo_run 0 0 ["bgkill", "0"] table3

/-- The next launch after `killed0`. -/
def relaunched : Shell := demo_run 104 1004 ["bg", "sleep", "80"] killed0

/-- The state in which a `bg` launch ends when `fork` fails, from two live jobs. -/
def failed_launch : Shell := demo_run 103 (-1) ["bg", "sleep", "70"] table2

/-- The state after the first round of the main loop reads `bg sleep 50`. -/
def after_bg : Shell :=
  (main_iteration 0 (demo_env 101 1001) [] "bg sleep 50" main_init).state

/-- The state after the next round reads `bglist`. -/
def after_bglist : Shell :=
  (main_iteration 0 (demo_env 0 0) [] "bglist" after_bg).state

/-- Sample results of `waitpid`: pids 1003 and 1001 of live jobs, then 555, which
is no job's pid, then 1002. -/
def sample_rets : List Int := [1003, 1001, 555, 1002]

/-! ## Theorems -/

/-! ### The live jobs of a well-formed table -/

theorem Rep.live_ptrs_eq {s : Shell} {js : List (Ptr × job)} {rest : List (Option Ptr)}
    (h : Rep s js rest) : s.live_ptrs = js.map Prod.fst := by
  unfold Shell.live_ptrs
  rw [h.bg, h.num]
  have : (js.map (fun c : Ptr × job => some c.1)).length = js.length := by simp
  simp only [Int.toNat_ofNat]
  rw [List.take_append_of_le_length (by simp), List.take_of_length_le (by simp)]
  clear h this
  induction js with
  | nil => rfl
  | cons c js ih => simpa [List.reduceOption_cons_of_some] using ih

theorem Rep.live_eq {s : Shell} {js : List (Ptr × job)} {rest : List (Option Ptr)}
    (h : Rep s js rest) : s.live = js.map Prod.snd := by
  unfold Shell.live
  rw [h.live_ptrs_eq]
  have hh := h.heap
  clear h
  induction js with
  | nil => rfl
  | cons c js ih =>
    have hc : s.heap c.1 = some c.2 := hh c (by simp)
    simp only [List.map_cons, List.filterMap_cons, hc]
    rw [ih (fun d hd => hh d (by simp [hd]))]

theorem rd_append_mid (pre : List (Option Ptr)) (x : Option Ptr) (rest : List (Option Ptr)) :
    rd (pre ++ x :: rest) pre.length = some x := by
  induction pre with
  | nil => rfl
  | cons a pre ih => simpa [rd] using ih

theorem scan_jobs_spec (s : Shell) (test : job → Bool) (js : List (Ptr × job)) :
    ∀ (pre rest : List (Option Ptr)),
      s.bg_list = pre ++ (js.map (fun c => some c.1) ++ rest) →
      (∀ c ∈ js, s.heap c.1 = some c.2) →
      scan_jobs s test js.length pre.length = some (js.find? (fun c => test c.2)) := by
  induction js with
  | nil => intro pre rest _ _; simp [scan_jobs]
  | cons c js ih =>
    intro pre rest hbg hheap
    have hrd : rd s.bg_list pre.length = some (some c.1) := by
      rw [hbg]
      exact rd_append_mid pre (some c.1) _
    have hc : s.heap c.1 = some c.2 := hheap c (by simp)
    have hnext := ih (pre ++ [some c.1]) rest (by simp [hbg]) (fun d hd => hheap d (by simp [hd]))
    simp only [List.length_append, List.length_singleton] at hnext
    simp only [List.length_cons, scan_jobs, hrd, hc]
    by_cases ht : test c.2 = true
    · simp [ht, List.find?]
    · simp [ht, List.find?, hnext]

theorem Rep.scan {s : Shell} {js : List (Ptr × job)} {rest : List (Option Ptr)}
    (h : Rep s js rest) (test : job → Bool) :
    scan_jobs s test s.num_bg_jobs.toNat 0 = some (js.find? (fun c => test c.2)) := by
  have := scan_jobs_spec s test js [] rest (by simpa using h.bg) h.heap
  rw [h.num]
  simpa using this

/-! ### The function `remove_job` -/

theorem wr_append_mid (pre : List (Option Ptr)) (x v : Option Ptr) (rest : List (Option Ptr)) :
    wr (pre ++ x :: rest) pre.length v = some (pre ++ v :: rest) := by
  induction pre with
  | nil => simp [wr]
  | cons a pre ih =>
    simp only [wr, List.cons_append, List.length_cons, List.set_cons_succ] at ih ⊢
    split at ih
    · rw [if_pos (by omega)]
      simp
    · simp at ih

/-- First loop of `remove_job`: the first slot holding `p` is cleared. -/
theorem remove_find_spec (p : Ptr) (l1 : List Ptr) (hp : p ∉ l1) :
    ∀ (pre more : List (Option Ptr)) (k : Nat),
      remove_find (some p) (l1.length + 1 + k) pre.length
          (pre ++ (l1.map some ++ some p :: more))
        = some (pre ++ (l1.map some ++ none :: more)) := by
  induction l1 with
  | nil =>
    intro pre more k
    have h1 := rd_append_mid pre (some p) more
    have h2 := wr_append_mid pre (some p) none more
    simp only [List.map_nil, List.nil_append, List.length_nil, Nat.zero_add,
      Nat.add_comm 1 k, remove_find, h1, if_true, h2]
  | cons a l1 ih =>
    intro pre more k
    have hne : ¬ (some p = some a) := by
      intro h
      exact hp (by simp [Option.some.inj h])
    have h1 := rd_append_mid pre (some a) (l1.map some ++ some p :: more)
    have h3 := ih (fun h => hp (by simp [h])) (pre ++ [some a]) more k
    simp only [List.length_append, List.length_singleton, List.append_assoc,
      List.singleton_append] at h3
    have e : (a :: l1).length + 1 + k = (l1.length + 1 + k) + 1 := by simp; omega
    rw [e]
    simp only [List.map_cons, List.cons_append, remove_find, h1, if_neg hne, h3]

/-- Second loop of `remove_job` on a table with one cleared live slot: the live
slots above it move down one place; the slots beyond the live ones stay
uniformly empty or uniformly occupied. -/
theorem compact_spec (l1 l2 : List Ptr) (rest : List (Option Ptr))
    (hlen : l1.length + 1 + l2.length + rest.length = MAX_JOBS)
    (htail : (∀ t ∈ rest, t = none) ∨ (∀ t ∈ rest, t ≠ none)) :
    ∃ rest2, compact MAX_JOBS false (l1.map some ++ (none :: (l2.map some ++ rest)))
        = some (l1.map some ++ (l2.map some ++ rest2)) ∧
      rest2.length = rest.length + 1 ∧
      ((∀ t ∈ rest2, t = none) ∨ (∀ t ∈ rest2, t ≠ none)) := by
  rcases l1 with _ | ⟨a1, _ | ⟨a2, _ | ⟨a3, _ | ⟨a4, _ | ⟨a5, l1⟩⟩⟩⟩⟩ <;>
  rcases l2 with _ | ⟨b1, _ | ⟨b2, _ | ⟨b3, _ | ⟨b4, _ | ⟨b5, l2⟩⟩⟩⟩⟩ <;>
  rcases rest with _ | ⟨t1, _ | ⟨t2, _ | ⟨t3, _ | ⟨t4, _ | ⟨t5, rest⟩⟩⟩⟩⟩ <;>
  simp [MAX_JOBS] at hlen
  all_goals (try omega)
  all_goals simp only [List.mem_cons, List.mem_singleton, List.not_mem_nil, or_false,
    forall_eq_or_imp, forall_eq, IsEmpty.forall_iff, implies_true, and_true,
    Option.ne_none_iff_exists'] at htail
  all_goals
    rcases htail with ⟨rfl, rfl, rfl, rfl⟩ | ⟨⟨x1, rfl⟩, ⟨x2, rfl⟩, ⟨x3, rfl⟩, ⟨x4, rfl⟩⟩
  all_goals
    simp [compact, shift_down, rd, wr, MAX_JOBS]

/-- The function `remove_job` on a live job: its cell leaves the table, the other
cells keep their order, its record is freed and the counter drops by one. -/
theorem Rep.remove_job_spec {s : Shell} {js : List (Ptr × job)} {rest : List (Option Ptr)}
    (h : Rep s js rest) (c : Ptr × job) (hc : c ∈ js) :
    ∃ s2 rest2, remove_job (some c.1) s = some s2 ∧
      Rep s2 (js.filter (fun d => d.1 ≠ c.1)) rest2 ∧
      s2.heap = (fun q => if q = c.1 then none else s.heap q) ∧
      s2.num_bg_jobs = s.num_bg_jobs - 1 ∧
      s2.trace = s.trace ∧ SameMisc s s2 := by
  obtain ⟨j1, j2, rfl⟩ := List.append_of_mem hc
  have hnd := h.ptrs
  simp only [List.map_append, List.map_cons, List.nodup_append, List.nodup_cons,
    List.disjoint_cons_right] at hnd
  obtain ⟨hnd1, ⟨hc2, hnd2⟩, hc1, hdis⟩ := hnd
  have hfilter : (j1 ++ c :: j2).filter (fun d => d.1 ≠ c.1) = j1 ++ j2 := by
    have e1 : j1.filter (fun d => d.1 ≠ c.1) = j1 := by
      rw [List.filter_eq_self]
      intro d hd
      have : d.1 ≠ c.1 := fun e => hc1 (e ▸ List.mem_map_of_mem Prod.fst hd)
      simpa using this
    have e2 : j2.filter (fun d => d.1 ≠ c.1) = j2 := by
      rw [List.filter_eq_self]
      intro d hd
      have : d.1 ≠ c.1 := fun e => hc2 (e ▸ List.mem_map_of_mem Prod.fst hd)
      simpa using this
    rw [List.filter_append, List.filter_cons, e1, e2]
    simp
  have hbg : s.bg_list = [] ++ ((j1.map Prod.fst).map some ++
      some c.1 :: ((j2.map Prod.fst).map some ++ rest)) := by
    rw [h.bg]
    simp [List.map_map, Function.comp_def]
  have hlen := h.len
  simp only [List.length_append, List.length_cons] at hlen
  have hfind := remove_find_spec c.1 (j1.map Prod.fst) hc1 []
    ((j2.map Prod.fst).map some ++ rest) j2.length
  simp only [List.length_map, List.length_nil, List.nil_append] at hfind
  obtain ⟨rest2, hcomp, hlen2, htail2⟩ := compact_spec (j1.map Prod.fst) (j2.map Prod.fst) rest
    (by simp only [List.length_map]; omega) h.tail
  have hnum : s.num_bg_jobs.toNat = j1.length + 1 + j2.length := by
    rw [h.num]
    simp only [List.length_append, List.length_cons, Int.toNat_ofNat]
    omega
  have hheapc : s.heap c.1 = some c.2 := h.heap c (by simp)
  refine ⟨{ s with
      bg_list := (j1.map Prod.fst).map some ++ ((j2.map Prod.fst).map some ++ rest2)
      num_bg_jobs := s.num_bg_jobs - 1
      heap := fun q => if q = c.1 then none else s.heap q }, rest2, ?_, ?_, rfl, rfl, rfl, rfl, rfl⟩
  · simp only [remove_job, hnum, hbg, hfind, List.nil_append, hcomp, free_job, hheapc]
  · rw [hfilter]
    refine ⟨?_, ?_, ?_, ?_, ?_, htail2⟩
    · simp [List.map_map, Function.comp_def]
    · simp only [h.num, List.length_append, List.length_cons]
      push_cast
      omega
    · simp only [List.length_append]
      omega
    · intro d hd
      have hd1 : d.1 ≠ c.1 := by
        intro e
        rcases List.mem_append.1 hd with hd | hd
        · exact hc1 (e ▸ List.mem_map_of_mem Prod.fst hd)
        · exact hc2 (e ▸ List.mem_map_of_mem Prod.fst hd)
      have hd2 : s.heap d.1 = some d.2 := h.heap d (by
        rcases List.mem_append.1 hd with hd | hd
        · simp [hd]
        · simp [hd])
      simp only [if_neg hd1, hd2]
    · simp only [List.map_append, List.nodup_append]
      exact ⟨hnd1, hnd2, fun x hx1 hx2 => hdis hx1 hx2⟩

/-! ### The function `assign_job_num` and the lookups -/

theorem job_at_mid (s : Shell) (pre : List (Option Ptr)) (c : Ptr × job)
    (more : List (Option Ptr)) (hbg : s.bg_list = pre ++ some c.1 :: more)
    (hc : s.heap c.1 = some c.2) : job_at s pre.length = some c.2 := by
  have hrd : rd s.bg_list pre.length = some (some c.1) := by
    rw [hbg]
    exact rd_append_mid pre (some c.1) _
  simp only [job_at, hrd, deref, hc]

theorem highest_loop_spec (s : Shell) (js : List (Ptr × job)) :
    ∀ (pre rest : List (Option Ptr)) (h0 : Int),
      s.bg_list = pre ++ (js.map (fun c => some c.1) ++ rest) →
      (∀ c ∈ js, s.heap c.1 = some c.2) →
      highest_loop s js.length pre.length h0
        = some (next_num (js.map (fun c => c.2.job_num)) h0) := by
  induction js with
  | nil => intro pre rest h0 _ _; simp [highest_loop, next_num]
  | cons c js ih =>
    intro pre rest h0 hbg hheap
    have hj := job_at_mid s pre c (js.map (fun c => some c.1) ++ rest) (by simpa using hbg)
      (hheap c (by simp))
    have hnext := ih (pre ++ [some c.1]) rest
      (if c.2.job_num ≥ h0 then c.2.job_num + 1 else h0)
      (by simp [hbg]) (fun d hd => hheap d (by simp [hd]))
    simp only [List.length_append, List.length_singleton] at hnext
    simp only [List.length_cons, highest_loop, hj, hnext, next_num, List.map_cons,
      List.foldl_cons]

theorem Rep.highest {s : Shell} {js : List (Ptr × job)} {rest : List (Option Ptr)}
    (h : Rep s js rest) :
    highest_loop s s.num_bg_jobs.toNat 0 0 = some (next_num (js.map (fun c => c.2.job_num)) 0) := by
  have := highest_loop_spec s js [] rest 0 (by simpa using h.bg) h.heap
  rw [h.num]
  simpa using this

theorem next_num_ge (nums : List Int) : ∀ h0 : Int, h0 ≤ next_num nums h0 := by
  induction nums with
  | nil => intro h0; simp [next_num]
  | cons n nums ih =>
    intro h0
    simp only [next_num, List.foldl_cons]
    have := ih (if n ≥ h0 then n + 1 else h0)
    simp only [next_num] at this
    by_cases hc : n ≥ h0
    · rw [if_pos hc] at this ⊢
      omega
    · rw [if_neg hc] at this ⊢
      omega

theorem next_num_gt (nums : List Int) : ∀ (h0 : Int) (n : Int), n ∈ nums → n < next_num nums h0 := by
  induction nums with
  | nil => intro h0 n hn; simp at hn
  | cons m nums ih =>
    intro h0 n hn
    simp only [next_num, List.foldl_cons]
    rcases List.mem_cons.1 hn with rfl | hn
    · have := next_num_ge nums (if n ≥ h0 then n + 1 else h0)
      simp only [next_num] at this
      by_cases hc : n ≥ h0
      · rw [if_pos hc] at this ⊢
        omega
      · rw [if_neg hc] at this ⊢
        omega
    · exact ih _ n hn

/-- Without wrap-around the value is one more than the largest live number, and 0
for an empty table. -/
theorem next_num_eq (nums : List Int) (hn : ∀ n ∈ nums, 0 ≤ n) :
    ∀ h0 : Int, 0 ≤ h0 → next_num nums h0 = nums.foldl (fun h n => max h (n + 1)) h0 := by
  induction nums with
  | nil => intro h0 _; rfl
  | cons n nums ih =>
    intro h0 hh
    simp only [next_num, List.foldl_cons]
    have hn0 := hn n (by simp)
    have e : (if n ≥ h0 then n + 1 else h0) = max h0 (n + 1) := by
      split
      · rw [max_eq_right (by omega)]
      · rw [max_eq_left (by omega)]
    rw [e]
    exact ih (fun m hm => hn m (by simp [hm])) _ (by omega)

theorem Rep.job_exists_eq {s : Shell} {js : List (Ptr × job)} {rest : List (Option Ptr)}
    (h : Rep s js rest) (n : Int) :
    job_exists n s = some (decide (n ∈ js.map (fun c => c.2.job_num))) := by
  unfold job_exists
  rw [h.scan]
  cases hf : js.find? (fun c => decide (n = c.2.job_num)) with
  | none =>
    have : n ∉ js.map (fun c => c.2.job_num) := by
      intro hm
      obtain ⟨c, hc, rfl⟩ := List.mem_map.1 hm
      have := List.find?_eq_none.1 hf c hc
      simp at this
    simp [this]
  | some c =>
    have h1 := List.find?_some hf
    have h2 := List.mem_of_find?_eq_some hf
    have : n ∈ js.map (fun c => c.2.job_num) := by
      simp only [decide_eq_true_eq] at h1
      exact h1 ▸ List.mem_map_of_mem (fun c => c.2.job_num) h2
    simp [this]

/-! ### The branches of `run_commands` -/

theorem Rep.of_frame {s s2 : Shell} {js : List (Ptr × job)} {rest : List (Option Ptr)}
    (h : Rep s js rest) (hbg : s2.bg_list = s.bg_list) (hnum : s2.num_bg_jobs = s.num_bg_jobs)
    (hheap : ∀ c ∈ js, s2.heap c.1 = s.heap c.1) : Rep s2 js rest :=
  ⟨hbg ▸ h.bg, hnum ▸ h.num, h.len, fun c hc => (hheap c hc).trans (h.heap c hc), h.ptrs, h.tail⟩

theorem Rep.fresh {s : Shell} {js : List (Ptr × job)} {rest : List (Option Ptr)}
    (h : Rep s js rest) {p : Ptr} (hp : s.heap p = none) : p ∉ js.map Prod.fst := by
  intro hm
  obtain ⟨c, hc, rfl⟩ := List.mem_map.1 hm
  rw [h.heap c hc] at hp
  exact Option.noConfusion hp

/-- The `bg` branch of `run_commands` with room in the table and a successful
`fork`, seen from the parent. -/
theorem bg_spec (fuel : Nat) (env : Env) (cmd : List String) {s : Shell}
    {js : List (Ptr × job)} {rest : List (Option Ptr)}
    (h : Rep s js rest) (hfresh : s.heap env.malloc_ret = none)
    (hroom : s.num_bg_jobs < MAX_JOBS) (hfork : 0 < env.fork_ret) :
    ∃ s2 t rest2, rest = t :: rest2 ∧
      run_commands fuel env ("bg" :: cmd) s = Outcome.running s2 ∧
      s2.bg_list = js.map (fun c => some c.1) ++ some env.malloc_ret :: rest2 ∧
      s2.num_bg_jobs = s.num_bg_jobs + 1 ∧
      s2.heap = (fun q => if q = env.malloc_ret then
          some (launched env cmd s (next_num (js.map (fun c => c.2.job_num)) 0)) else s.heap q) ∧
      s2.trace = s.trace ++ (Event.fork env.fork_ret ::
        if s.shell_is_interactive ≠ 0 then [Event.setpgid env.fork_ret env.fork_ret] else []) ∧
      SameMisc s s2 := by
  have hlen := h.len
  have hnum := h.num
  rw [hnum] at hroom
  obtain ⟨t, rest2, rfl⟩ : ∃ t rest2, rest = t :: rest2 := by
    cases rest with
    | nil => simp [MAX_JOBS] at hlen hroom; omega
    | cons t rest2 => exact ⟨t, rest2, rfl⟩
  have hrep1 : ∀ r, Rep (store s env.malloc_ret r) js (t :: rest2) := fun r =>
    h.of_frame rfl rfl (fun c hc => by
      have : c.1 ≠ env.malloc_ret :=
        fun e => h.fresh hfresh (e ▸ List.mem_map_of_mem Prod.fst hc)
      simp [store, this])
  have hhigh := fun r => (hrep1 r).highest
  have hwr := wr_append_mid (js.map (fun c => some c.1)) t (some env.malloc_ret) rest2
  rw [List.length_map] at hwr
  have hnn : ¬ (s.num_bg_jobs < 0) := by rw [hnum]; omega
  have hfork0 : ¬ (env.fork_ret = 0) := by omega
  have hfork1 : ¬ (env.fork_ret < 0) := by omega
  have hge : ¬ (s.num_bg_jobs ≥ (MAX_JOBS : Int)) := by rw [hnum]; omega
  have e1 : run_commands fuel env ("bg" :: cmd) s =
      (if s.num_bg_jobs ≥ MAX_JOBS then
        Outcome.running (display_shell env "Maximum amount of background jobs already active" s)
      else
        match build_job env ("bg" :: cmd) FALSE s with
        | none => Outcome.undefined
        | some (j, s1) => execute_job env j s1) := by
    simp [run_commands]
  rw [e1, if_neg hge]
  simp only [build_job, assign_job_num, hhigh]
  have hnn2 : ¬ ((js.length : Int) < 0) := by omega
  by_cases hi : s.shell_is_interactive = 0
  · simp [store, execute_job, FALSE, TRUE, hnn2, hfork0, hfork1, h.bg, hnum, hwr, emit, hi,
      SameMisc, launched]
    refine ⟨_, _, _, ⟨rfl, rfl⟩, rfl, rfl, rfl, ?_, rfl, rfl, rfl⟩
    funext q
    by_cases hq : q = env.malloc_ret <;> simp [hq]
  · simp [store, execute_job, FALSE, TRUE, hnn2, hfork0, hfork1, h.bg, hnum, hwr, emit, hi,
      SameMisc, launched]
    refine ⟨_, _, _, ⟨rfl, rfl⟩, rfl, rfl, rfl, ?_, rfl, rfl, rfl⟩
    funext q
    by_cases hq : q = env.malloc_ret <;> simp [hq]

theorem find_by_num {js : List (Ptr × job)} (hn : (js.map (fun c => c.2.job_num)).Nodup)
    {c : Ptr × job} (hc : c ∈ js) :
    js.find? (fun d => decide (c.2.job_num = d.2.job_num)) = some c := by
  induction js with
  | nil => simp at hc
  | cons d js ih =>
    simp only [List.map_cons, List.nodup_cons] at hn
    rcases List.mem_cons.1 hc with rfl | hc2
    · simp [List.find?]
    · have hne : ¬ (c.2.job_num = d.2.job_num) := by
        intro e
        exact hn.1 (e ▸ List.mem_map_of_mem (fun c => c.2.job_num) hc2)
      simp only [List.find?, hne, decide_False]
      exact ih hn.2 hc2

theorem Rep.get_job_by_num_live {s : Shell} {js : List (Ptr × job)} {rest : List (Option Ptr)}
    (h : Rep s js rest) (hg : Good js) (env : Env) {c : Ptr × job} (hc : c ∈ js) :
    get_job_by_num env c.2.job_num s = some (some c.1, s) := by
  have hex : c.2.job_num ∈ js.map (fun c => c.2.job_num) :=
    List.mem_map_of_mem (fun c => c.2.job_num) hc
  simp only [get_job_by_num, h.job_exists_eq, hex, decide_True, h.scan, find_by_num hg.nums hc]

theorem Rep.get_job_by_num_absent {s : Shell} {js : List (Ptr × job)} {rest : List (Option Ptr)}
    (h : Rep s js rest) (env : Env) {n : Int} (hn : n ∉ js.map (fun c => c.2.job_num)) :
    get_job_by_num env n s
      = some (none, display_shell env ("Job " ++ toString n ++ " doesnt exist") s) := by
  simp only [get_job_by_num, h.job_exists_eq, hn, decide_False]

theorem Rep.after_emit {s : Shell} {js : List (Ptr × job)} {rest : List (Option Ptr)}
    (h : Rep s js rest) (e : Event) : Rep (emit s e) js rest :=
  h.of_frame rfl rfl (fun _ _ => rfl)

theorem Rep.after_display {s : Shell} {js : List (Ptr × job)} {rest : List (Option Ptr)}
    (h : Rep s js rest) (env : Env) (str : String) : Rep (display_shell env str s) js rest :=
  h.of_frame rfl rfl (fun _ _ => rfl)

/-- The `bgkill` branch of `run_commands` for the number of a live job. -/
theorem bgkill_live (fuel : Nat) (env : Env) (a : String) (more : List String) {s : Shell}
    {js : List (Ptr × job)} {rest : List (Option Ptr)}
    (h : Rep s js rest) (hg : Good js) {c : Ptr × job} (hc : c ∈ js)
    (ha : atoi a = c.2.job_num) :
    run_commands fuel env ("bgkill" :: a :: more) s
      = Outcome.ofOption (remove_job (some c.1) (emit s (Event.kill c.2.pid Signal.SIGKILL))) := by
  have hex : c.2.job_num ∈ js.map (fun c => c.2.job_num) :=
    List.mem_map_of_mem (fun c => c.2.job_num) hc
  have hpid : ¬ (c.2.pid = 0) := by
    have := hg.pids c hc
    omega
  simp [run_commands, ha, h.get_job_by_num_live hg env hc, h.job_exists_eq, hex, deref,
    h.heap c hc, hpid]

/-- The `bgkill` branch of `run_commands` for a number no live job has. -/
theorem bgkill_absent (fuel : Nat) (env : Env) (a : String) (more : List String) {s : Shell}
    {js : List (Ptr × job)} {rest : List (Option Ptr)}
    (h : Rep s js rest) (hn : atoi a ∉ js.map (fun c => c.2.job_num)) :
    run_commands fuel env ("bgkill" :: a :: more) s
      = Outcome.running (display_shell env ("Job " ++ toString (atoi a) ++ " doesnt exist")
          (display_shell env ("Job " ++ toString (atoi a) ++ " doesnt exist") s)) := by
  simp [run_commands, h.get_job_by_num_absent env hn, (h.after_display env _).job_exists_eq, hn]

/-- The `stop` branch of `run_commands` for the number of a live job. -/
theorem stop_live (fuel : Nat) (env : Env) (a : String) (more : List String) {s : Shell}
    {js : List (Ptr × job)} {rest : List (Option Ptr)}
    (h : Rep s js rest) (hg : Good js) {c : Ptr × job} (hc : c ∈ js)
    (ha : atoi a = c.2.job_num) :
    run_commands fuel env ("stop" :: a :: more) s
      = Outcome.running (emit (store s c.1 { c.2 with status := FALSE })
          (Event.kill c.2.pid Signal.SIGTSTP)) := by
  have hex : c.2.job_num ∈ js.map (fun c => c.2.job_num) :=
    List.mem_map_of_mem (fun c => c.2.job_num) hc
  simp [run_commands, ha, h.get_job_by_num_live hg env hc, h.job_exists_eq, hex, h.heap c hc]

theorem stop_absent (fuel : Nat) (env : Env) (a : String) (more : List String) {s : Shell}
    {js : List (Ptr × job)} {rest : List (Option Ptr)}
    (h : Rep s js rest) (hn : atoi a ∉ js.map (fun c => c.2.job_num)) :
    run_commands fuel env ("stop" :: a :: more) s
      = Outcome.running (display_shell env ("Job " ++ toString (atoi a) ++ " doesnt exist") s) := by
  simp [run_commands, h.job_exists_eq, hn]

/-- The `start` branch of `run_commands` for the number of a live job. -/
theorem start_live (fuel : Nat) (env : Env) (a : String) (more : List String) {s : Shell}
    {js : List (Ptr × job)} {rest : List (Option Ptr)}
    (h : Rep s js rest) (hg : Good js) {c : Ptr × job} (hc : c ∈ js)
    (ha : atoi a = c.2.job_num) :
    run_commands fuel env ("start" :: a :: more) s
      = Outcome.running (emit (store s c.1 { c.2 with status := TRUE })
          (Event.kill c.2.pid Signal.SIGCONT)) := by
  have hex : c.2.job_num ∈ js.map (fun c => c.2.job_num) :=
    List.mem_map_of_mem (fun c => c.2.job_num) hc
  simp [run_commands, ha, h.get_job_by_num_live hg env hc, h.job_exists_eq, hex, h.heap c hc]

theorem start_absent (fuel : Nat) (env : Env) (a : String) (more : List String) {s : Shell}
    {js : List (Ptr × job)} {rest : List (Option Ptr)}
    (h : Rep s js rest) (hn : atoi a ∉ js.map (fun c => c.2.job_num)) :
    run_commands fuel env ("start" :: a :: more) s
      = Outcome.running (display_shell env ("Job " ++ toString (atoi a) ++ " doesnt exist") s) := by
  simp [run_commands, h.job_exists_eq, hn]

theorem set_status_fst (p : Ptr) (v : Int) (c : Ptr × job) : (set_status p v c).1 = c.1 := by
  unfold set_status
  split <;> rfl

theorem set_status_num (p : Ptr) (v : Int) (c : Ptr × job) :
    (set_status p v c).2.job_num = c.2.job_num := by
  unfold set_status
  split <;> rfl

theorem set_status_pid (p : Ptr) (v : Int) (c : Ptr × job) :
    (set_status p v c).2.pid = c.2.pid := by
  unfold set_status
  split <;> rfl

theorem Rep.store_status {s : Shell} {js : List (Ptr × job)} {rest : List (Option Ptr)}
    (h : Rep s js rest) {c : Ptr × job} (hc : c ∈ js) (v : Int) :
    Rep (store s c.1 { c.2 with status := v }) (js.map (set_status c.1 v)) rest := by
  refine ⟨?_, ?_, ?_, ?_, ?_, h.tail⟩
  · have : (js.map (set_status c.1 v)).map (fun d => some d.1) = js.map (fun d => some d.1) := by
      simp [List.map_map, Function.comp_def, set_status_fst]
    rw [this]
    exact h.bg
  · simpa using h.num
  · simpa using h.len
  · intro d hd
    obtain ⟨d0, hd0, rfl⟩ := List.mem_map.1 hd
    have h0 := h.heap d0 hd0
    by_cases e : d0.1 = c.1
    · have h1 := h.heap c hc
      rw [← e, h0] at h1
      have h2 : d0.2 = c.2 := Option.some.inj h1
      simp [set_status, store, e, h2]
    · simp [set_status, store, e, h0]
  · have : (js.map (set_status c.1 v)).map Prod.fst = js.map Prod.fst := by
      simp [List.map_map, Function.comp_def, set_status_fst]
    rw [this]
    exact h.ptrs

theorem Good.after_status {js : List (Ptr × job)} (hg : Good js) (p : Ptr) (v : Int) :
    Good (js.map (set_status p v)) := by
  refine ⟨?_, ?_, ?_⟩
  · have : (js.map (set_status p v)).map (fun c => c.2.job_num)
        = js.map (fun c => c.2.job_num) := by
      simp [List.map_map, Function.comp_def, set_status_num]
    rw [this]
    exact hg.nums
  · intro d hd
    obtain ⟨d0, hd0, rfl⟩ := List.mem_map.1 hd
    rw [set_status_num]
    exact hg.nonneg d0 hd0
  · intro d hd
    obtain ⟨d0, hd0, rfl⟩ := List.mem_map.1 hd
    rw [set_status_pid]
    exact hg.pids d0 hd0

theorem Good.of_filter {js : List (Ptr × job)} (hg : Good js) (P : Ptr × job → Bool) :
    Good (js.filter P) :=
  ⟨(List.filter_sublist js).map _ |>.nodup hg.nums,
   fun c hc => hg.nonneg c (List.mem_of_mem_filter hc),
   fun c hc => hg.pids c (List.mem_of_mem_filter hc)⟩

theorem Rep.get_job_num_by_pid_eq {s : Shell} {js : List (Ptr × job)} {rest : List (Option Ptr)}
    (h : Rep s js rest) (pid : Int) :
    get_job_num_by_pid pid s =
      some (match js.find? (fun d => decide (pid = d.2.pid)) with
        | none => -1
        | some c => c.2.job_num) := by
  unfold get_job_num_by_pid
  rw [h.scan]
  cases js.find? (fun d => decide (pid = d.2.pid)) <;> rfl

/-- One round of the loop of `update_list` for the pid of a tracked job. -/
theorem update_list_tracked (env : Env) (cpid : Int) (rets : List Int) {s : Shell}
    {js : List (Ptr × job)} {rest : List (Option Ptr)}
    (h : Rep s js rest) (hg : Good js) (hpos : 0 < cpid) {c : Ptr × job}
    (hf : js.find? (fun d => decide (cpid = d.2.pid)) = some c) :
    update_list env (cpid :: rets) s =
      match remove_job (some c.1)
          (emit s (Event.stdout ("Job " ++ toString c.2.job_num ++ " finished\n"))) with
      | none => none
      | some s2 => update_list env rets s2 := by
  have hc : c ∈ js := List.mem_of_find?_eq_some hf
  have hne : ¬ (c.2.job_num = -1) := by
    have := hg.nonneg c hc
    omega
  simp only [update_list, hpos, if_true, h.get_job_num_by_pid_eq, hf, hne, if_false,
    h.get_job_by_num_live hg env hc, gt_iff_lt]

/-- The loop of `update_list` stops at a pid no live job has. -/
theorem update_list_untracked (env : Env) (cpid : Int) (rets : List Int) {s : Shell}
    {js : List (Ptr × job)} {rest : List (Option Ptr)}
    (h : Rep s js rest)
    (hf : js.find? (fun d => decide (cpid = d.2.pid)) = none) :
    update_list env (cpid :: rets) s = some s := by
  by_cases hpos : cpid > 0
  · simp only [update_list, hpos, if_true, h.get_job_num_by_pid_eq, hf]
  · simp only [update_list, hpos, if_false]

/-- The last branch of `run_commands` (a foreground command) with a successful
`fork`, seen from the parent: the table is as before. -/
theorem fg_spec (fuel : Nat) (env : Env) (a0 : String) (more : List String) {s : Shell}
    {js : List (Ptr × job)} {rest : List (Option Ptr)}
    (h : Rep s js rest) (hfresh : s.heap env.malloc_ret = none)
    (ha : a0 ∉ builtins) (hfork : 0 < env.fork_ret) :
    ∃ s2, run_commands fuel env (a0 :: more) s = Outcome.running s2 ∧
      s2.bg_list = s.bg_list ∧ s2.num_bg_jobs = s.num_bg_jobs ∧
      (∀ q, s2.heap q = s.heap q) ∧
      s2.trace = s.trace ++ (Event.fork env.fork_ret ::
        ((if s.shell_is_interactive ≠ 0 then [Event.setpgid env.fork_ret env.fork_ret] else [])
          ++ [Event.wait])) ∧
      SameMisc s s2 := by
  simp only [builtins, List.mem_cons, List.mem_singleton, List.not_mem_nil, or_false,
    not_or] at ha
  obtain ⟨h1, h2, h3, h4, h5, h6, h7⟩ := ha
  have hrep1 : ∀ r, Rep (store s env.malloc_ret r) js rest := fun r =>
    h.of_frame rfl rfl (fun c hc => by
      have : c.1 ≠ env.malloc_ret :=
        fun e => h.fresh hfresh (e ▸ List.mem_map_of_mem Prod.fst hc)
      simp [store, this])
  have hhigh := fun r => (hrep1 r).highest
  have hfork0 : ¬ (env.fork_ret = 0) := by omega
  have hfork1 : ¬ (env.fork_ret < 0) := by omega
  have e1 : run_commands fuel env (a0 :: more) s =
      (match build_job env (a0 :: more) TRUE s with
      | none => Outcome.undefined
      | some (j, s1) =>
        match execute_job env j s1 with
        | Outcome.running s2 => Outcome.ofOption (free_job (some j) s2)
        | o => o) := by
    simp [run_commands, h1, h2, h3, h4, h5, h6, h7]
  rw [e1]
  simp only [build_job, assign_job_num, hhigh]
  by_cases hi : s.shell_is_interactive = 0
  · simp [store, execute_job, FALSE, TRUE, hfork0, hfork1, emit, hi,
      SameMisc, h3, free_job, Outcome.ofOption]
    intro q
    by_cases hq : q = env.malloc_ret <;> simp [hq, hfresh]
  · simp [store, execute_job, FALSE, TRUE, hfork0, hfork1, emit, hi,
      SameMisc, h3, free_job, Outcome.ofOption]
    intro q
    by_cases hq : q = env.malloc_ret <;> simp [hq, hfresh]

/-- Without a positive result of `fork` the parent does not return from
`execute_job`. -/
theorem execute_job_not_running (env : Env) (j : Ptr) (s s2 : Shell)
    (hfork : ¬ 0 < env.fork_ret) : execute_job env j s ≠ Outcome.running s2 := by
  unfold execute_job
  have h1 : env.fork_ret = 0 ∨ env.fork_ret < 0 := by omega
  cases hj : s.heap j with
  | none => simp
  | some r0 =>
    simp only
    split
    · simp
    · rcases h1 with h1 | h1
      · simp [h1]
      · have h0 : ¬ env.fork_ret = 0 := by omega
        simp [h0, h1]

theorem bglist_loop_frame : ∀ (k i : Nat) (s s2 : Shell), bglist_loop k i s = some s2 →
    s2.bg_list = s.bg_list ∧ s2.num_bg_jobs = s.num_bg_jobs ∧ s2.heap = s.heap ∧
    SameMisc s s2 := by
  intro k
  induction k with
  | zero =>
    intro i s s2 hl
    simp only [bglist_loop, Option.some.injEq] at hl
    subst hl
    exact ⟨rfl, rfl, rfl, rfl, rfl⟩
  | succ k ih =>
    intro i s s2 hl
    simp only [bglist_loop] at hl
    split at hl
    · exact Option.noConfusion hl
    · split at hl
      · exact Option.noConfusion hl
      · have hfr := ih _ _ s2 hl
        exact hfr

/-! ### The invariant holds in every reachable state -/

theorem Inv.same_table {s s2 : Shell} (h : Inv s) (hbg : s2.bg_list = s.bg_list)
    (hnum : s2.num_bg_jobs = s.num_bg_jobs) (hheap : ∀ q, s2.heap q = s.heap q) : Inv s2 := by
  obtain ⟨js, rest, hr, hg⟩ := h
  exact ⟨js, rest, hr.of_frame hbg hnum (fun c _ => hheap c.1), hg⟩

theorem Inv.at_start : Inv main_init := by
  refine ⟨[], List.replicate MAX_JOBS none, ⟨rfl, rfl, by simp, ?_, by simp, ?_⟩, ⟨by simp, ?_, ?_⟩⟩
  · intro c hc
    simp at hc
  · left
    intro t ht
    exact (List.mem_replicate.1 ht).2
  · intro c hc
    simp at hc
  · intro c hc
    simp at hc

/-- Removing a live job keeps the invariant. -/
theorem Inv.remove {s : Shell} {js : List (Ptr × job)} {rest : List (Option Ptr)}
    (h : Rep s js rest) (hg : Good js) {c : Ptr × job} (hc : c ∈ js) (e : Event) :
    ∃ s2 rest2, remove_job (some c.1) (emit s e) = some s2 ∧
      Rep s2 (js.filter (fun d => d.1 ≠ c.1)) rest2 ∧ Good (js.filter (fun d => d.1 ≠ c.1)) ∧
      s2.num_bg_jobs = s.num_bg_jobs - 1 ∧ s2.trace = s.trace ++ [e] ∧ SameMisc s s2 := by
  obtain ⟨s2, rest2, h1, h2, _, h4, h5, h6⟩ := (h.after_emit e).remove_job_spec c hc
  exact ⟨s2, rest2, h1, h2, hg.of_filter _, h4, h5, h6⟩

/-- The function `update_list` returns on every table that satisfies the
invariant, for every sequence of `waitpid` results, and keeps the invariant. -/
theorem update_list_inv (env : Env) : ∀ (rets : List Int) (s : Shell), Inv s →
    ∃ s2, update_list env rets s = some s2 ∧ Inv s2 := by
  intro rets
  induction rets with
  | nil => intro s hs; exact ⟨s, rfl, hs⟩
  | cons cpid rets ih =>
    intro s hs
    obtain ⟨js, rest, h, hg⟩ := hs
    cases hf : js.find? (fun d => decide (cpid = d.2.pid)) with
    | none => exact ⟨s, update_list_untracked env cpid rets h hf, js, rest, h, hg⟩
    | some c =>
      by_cases hpos : 0 < cpid
      · have hc : c ∈ js := List.mem_of_find?_eq_some hf
        obtain ⟨s1, rest1, hrm, hrep1, hg1, _⟩ := Inv.remove h hg hc
          (Event.stdout ("Job " ++ toString c.2.job_num ++ " finished\n"))
        obtain ⟨s2, hs2, hi2⟩ := ih s1 ⟨_, rest1, hrep1, hg1⟩
        refine ⟨s2, ?_, hi2⟩
        rw [update_list_tracked env cpid rets h hg hpos hf, hrm]
        exact hs2
      · refine ⟨s, ?_, js, rest, h, hg⟩
        have : ¬ cpid > 0 := hpos
        simp only [update_list, this, if_false]

/-- The table after a launch: the new cell is appended to the live ones. -/
theorem launch_rep {s s3 : Shell} {js : List (Ptr × job)} {t : Option Ptr}
    {rest2 : List (Option Ptr)} {p : Ptr} {r : job}
    (h : Rep s js (t :: rest2)) (hg : Good js) (hfresh : s.heap p = none)
    (hbg : s3.bg_list = js.map (fun c => some c.1) ++ some p :: rest2)
    (hnum : s3.num_bg_jobs = s.num_bg_jobs + 1)
    (hheap : s3.heap = fun q => if q = p then some r else s.heap q)
    (hrnum : r.job_num = next_num (js.map (fun c => c.2.job_num)) 0) (hpid : 0 < r.pid) :
    Rep s3 (js ++ [(p, r)]) rest2 ∧ Good (js ++ [(p, r)]) := by
  have hp : p ∉ js.map Prod.fst := h.fresh hfresh
  refine ⟨⟨?_, ?_, ?_, ?_, ?_, ?_⟩, ⟨?_, ?_, ?_⟩⟩
  · rw [hbg]
    simp
  · rw [hnum, h.num]
    simp
  · have := h.len
    simp only [List.length_cons, List.length_append, List.length_nil] at this ⊢
    omega
  · intro c hc
    rw [hheap]
    rcases List.mem_append.1 hc with hc | hc
    · have : c.1 ≠ p := fun e => hp (e ▸ List.mem_map_of_mem Prod.fst hc)
      simp only [if_neg this]
      exact h.heap c hc
    · simp only [List.mem_singleton] at hc
      subst hc
      simp
  · simp only [List.map_append, List.map_cons, List.map_nil]
    rw [List.nodup_append]
    refine ⟨h.ptrs, by simp, ?_⟩
    intro x hx hx2
    simp only [List.mem_singleton] at hx2
    exact hp (hx2 ▸ hx)
  · rcases h.tail with ht | ht
    · left
      intro x hx
      exact ht x (by simp [hx])
    · right
      intro x hx
      exact ht x (by simp [hx])
  · simp only [List.map_append, List.map_cons, List.map_nil]
    rw [List.nodup_append]
    refine ⟨hg.nums, by simp, ?_⟩
    intro x hx hx2
    simp only [List.mem_singleton] at hx2
    have := next_num_gt (js.map (fun c => c.2.job_num)) 0 x hx
    rw [hx2, hrnum] at this
    exact lt_irrefl _ this
  · intro c hc
    rcases List.mem_append.1 hc with hc | hc
    · exact hg.nonneg c hc
    · simp only [List.mem_singleton] at hc
      subst hc
      simp only [hrnum]
      exact next_num_ge _ 0
  · intro c hc
    rcases List.mem_append.1 hc with hc | hc
    · exact hg.pids c hc
    · simp only [List.mem_singleton] at hc
      subst hc
      exact hpid

/-- A command that returns to the main loop keeps the table well-formed. -/
theorem run_commands_step (fuel : Nat) (env : Env) (args : List String) (s s2 : Shell)
    {js : List (Ptr × job)} {rest : List (Option Ptr)} (h : Rep s js rest) (hg : Good js)
    (hfresh : s.heap env.malloc_ret = none)
    (hrun : run_commands fuel env args s = Outcome.running s2) : StepOK args s js s2 := by
  have hsame : ∀ {s3 : Shell}, Rep s3 js rest → StepOK args s js s3 :=
    fun h3 => ⟨js, rest, h3, hg, fun m hm => Or.inl hm⟩
  cases args with
  | nil => simp [run_commands] at hrun
  | cons a0 more =>
    by_cases h1 : a0 = "exit"
    · subst h1
      simp only [run_commands, if_true] at hrun
      split at hrun <;> simp_all
    by_cases h2 : a0 = "cd"
    · subst h2
      simp only [run_commands] at hrun
      simp only [show ¬ ("cd" = "exit") by decide, if_false, if_true] at hrun
      split at hrun
      · simp only [Outcome.running.injEq] at hrun
        subst hrun
        exact hsame (h.of_frame rfl rfl (fun _ _ => rfl))
      · split at hrun
        · simp only [Outcome.running.injEq] at hrun
          subst hrun
          exact hsame (h.of_frame rfl rfl (fun _ _ => rfl))
        · split at hrun
          · simp only [Outcome.running.injEq] at hrun
            subst hrun
            exact hsame (h.of_frame rfl rfl (fun _ _ => rfl))
          · simp only [Outcome.running.injEq] at hrun
            subst hrun
            exact hsame (h.of_frame rfl rfl (fun _ _ => rfl))
    by_cases h3 : a0 = "bg"
    · subst h3
      by_cases hfull : s.num_bg_jobs ≥ (MAX_JOBS : Int)
      · have e : run_commands fuel env ("bg" :: more) s = Outcome.running
            (display_shell env "Maximum amount of background jobs already active" s) := by
          simp [run_commands, hfull]
        rw [e] at hrun
        simp only [Outcome.running.injEq] at hrun
        subst hrun
        exact hsame (h.after_display env _)
      · by_cases hfork : 0 < env.fork_ret
        · obtain ⟨s3, t, rest2, rfl, hr, hbg, hnum, hheap, _⟩ :=
            bg_spec fuel env more h hfresh (by omega) hfork
          rw [hr] at hrun
          simp only [Outcome.running.injEq] at hrun
          subst hrun
          obtain ⟨hr3, hg3⟩ := launch_rep h hg hfresh hbg hnum hheap rfl hfork
          refine ⟨_, rest2, hr3, hg3, ?_⟩
          intro m hm
          simp only [List.map_append, List.map_cons, List.map_nil, List.mem_append,
            List.mem_singleton] at hm
          rcases hm with hm | hm
          · exact Or.inl hm
          · exact Or.inr ⟨rfl, by omega, hm⟩
        · exfalso
          have e : run_commands fuel env ("bg" :: more) s =
              (match build_job env ("bg" :: more) FALSE s with
              | none => Outcome.undefined
              | some (j, s1) => execute_job env j s1) := by
            simp [run_commands, hfull]
          rw [e] at hrun
          split at hrun
          · exact Outcome.noConfusion hrun
          · exact execute_job_not_running env _ _ _ hfork hrun
    by_cases h4 : a0 = "bglist"
    · subst h4
      have e : run_commands fuel env ("bglist" :: more) s =
          (match bglist_loop s.num_bg_jobs.toNat 0 s with
          | none => Outcome.undefined
          | some s1 => Outcome.running
              (emit s1 (Event.stdout ("Total background jobs: " ++ toString s.num_bg_jobs ++ "\n")))) := by
        simp [run_commands]
      rw [e] at hrun
      split at hrun
      · exact Outcome.noConfusion hrun
      · rename_i s1 hl
        simp only [Outcome.running.injEq] at hrun
        subst hrun
        obtain ⟨f1, f2, f3, _⟩ := bglist_loop_frame _ _ _ _ hl
        exact hsame (h.of_frame f1 f2 (fun c _ => by simp [emit, f3]))
    by_cases h5 : a0 = "bgkill"
    · subst h5
      cases more with
      | nil =>
        have e : run_commands fuel env ["bgkill"] s =
            Outcome.running (display_shell env "No job specified" s) := by
          simp [run_commands]
        rw [e] at hrun
        simp only [Outcome.running.injEq] at hrun
        subst hrun
        exact hsame (h.after_display env _)
      | cons a1 more =>
        by_cases hn : atoi a1 ∈ js.map (fun c => c.2.job_num)
        · obtain ⟨c, hc, hcn⟩ := List.mem_map.1 hn
          rw [bgkill_live fuel env a1 more h hg hc hcn.symm] at hrun
          obtain ⟨s3, rest3, hrm, hrep3, hg3, _⟩ :=
            Inv.remove h hg hc (Event.kill c.2.pid Signal.SIGKILL)
          rw [hrm] at hrun
          simp only [Outcome.ofOption, Outcome.running.injEq] at hrun
          subst hrun
          refine ⟨_, rest3, hrep3, hg3, ?_⟩
          intro m hm
          exact Or.inl ((List.filter_sublist js).map _ |>.subset hm)
        · rw [bgkill_absent fuel env a1 more h hn] at hrun
          simp only [Outcome.running.injEq] at hrun
          subst hrun
          exact hsame ((h.after_display env _).after_display env _)
    by_cases h6 : a0 = "stop"
    · subst h6
      cases more with
      | nil =>
        have e : run_commands fuel env ["stop"] s =
            Outcome.running (display_shell env "No job specified" s) := by
          simp [run_commands]
        rw [e] at hrun
        simp only [Outcome.running.injEq] at hrun
        subst hrun
        exact hsame (h.after_display env _)
      | cons a1 more =>
        by_cases hn : atoi a1 ∈ js.map (fun c => c.2.job_num)
        · obtain ⟨c, hc, hcn⟩ := List.mem_map.1 hn
          rw [stop_live fuel env a1 more h hg hc hcn.symm] at hrun
          simp only [Outcome.running.injEq] at hrun
          subst hrun
          refine ⟨_, rest, (h.store_status hc FALSE).after_emit _, hg.after_status _ _, ?_⟩
          intro m hm
          have e : (js.map (set_status c.1 FALSE)).map (fun c => c.2.job_num)
              = js.map (fun c => c.2.job_num) := by
            simp [List.map_map, Function.comp_def, set_status_num]
          rw [e] at hm
          exact Or.inl hm
        · rw [stop_absent fuel env a1 more h hn] at hrun
          simp only [Outcome.running.injEq] at hrun
          subst hrun
          exact hsame (h.after_display env _)
    by_cases h7 : a0 = "start"
    · subst h7
      cases more with
      | nil =>
        have e : run_commands fuel env ["start"] s =
            Outcome.running (display_shell env "No job specified" s) := by
          simp [run_commands]
        rw [e] at hrun
        simp only [Outcome.running.injEq] at hrun
        subst hrun
        exact hsame (h.after_display env _)
      | cons a1 more =>
        by_cases hn : atoi a1 ∈ js.map (fun c => c.2.job_num)
        · obtain ⟨c, hc, hcn⟩ := List.mem_map.1 hn
          rw [start_live fuel env a1 more h hg hc hcn.symm] at hrun
          simp only [Outcome.running.injEq] at hrun
          subst hrun
          refine ⟨_, rest, (h.store_status hc TRUE).after_emit _, hg.after_status _ _, ?_⟩
          intro m hm
          have e : (js.map (set_status c.1 TRUE)).map (fun c => c.2.job_num)
              = js.map (fun c => c.2.job_num) := by
            simp [List.map_map, Function.comp_def, set_status_num]
          rw [e] at hm
          exact Or.inl hm
        · rw [start_absent fuel env a1 more h hn] at hrun
          simp only [Outcome.running.injEq] at hrun
          subst hrun
          exact hsame (h.after_display env _)
    have hb : a0 ∉ builtins := by
      simp [builtins, h1, h2, h3, h4, h5, h6, h7]
    by_cases hfork : 0 < env.fork_ret
    · obtain ⟨s3, hr, f1, f2, f3, _⟩ := fg_spec fuel env a0 more h hfresh hb hfork
      rw [hr] at hrun
      simp only [Outcome.running.injEq] at hrun
      subst hrun
      exact hsame (h.of_frame f1 f2 (fun c _ => f3 c.1))
    · exfalso
      have e : run_commands fuel env (a0 :: more) s =
          (match build_job env (a0 :: more) TRUE s with
          | none => Outcome.undefined
          | some (j, s1) =>
            match execute_job env j s1 with
            | Outcome.running s2 => Outcome.ofOption (free_job (some j) s2)
            | o => o) := by
        simp [run_commands, h1, h2, h3, h4, h5, h6, h7]
      rw [e] at hrun
      split at hrun
      · exact Outcome.noConfusion hrun
      · rename_i j s1 _
        cases hx : execute_job env j s1 with
        | running s4 => exact execute_job_not_running env _ _ _ hfork hx
        | exited c s4 => simp [hx] at hrun
        | child s4 => simp [hx] at hrun
        | undefined => simp [hx] at hrun
        | unfinished => simp [hx] at hrun

/-- A command that returns to the main loop keeps the invariant. -/
theorem run_commands_inv (fuel : Nat) (env : Env) (args : List String) (s s2 : Shell)
    (hs : Inv s) (hfresh : s.heap env.malloc_ret = none)
    (hrun : run_commands fuel env args s = Outcome.running s2) : Inv s2 := by
  obtain ⟨js, rest, h, hg⟩ := hs
  obtain ⟨js2, rest2, h2, hg2, _⟩ := run_commands_step fuel env args s s2 h hg hfresh hrun
  exact ⟨js2, rest2, h2, hg2⟩

theorem Reachable.inv {s : Shell} (h : Reachable s) : Inv s := by
  induction h with
  | init => exact Inv.at_start
  | prompt s cwd _ ih => exact ih.same_table rfl rfl (fun _ => rfl)
  | command s s2 fuel env args _ hfresh hrun ih =>
    exact run_commands_inv fuel env args s s2 ih hfresh hrun
  | reap s s2 env rets _ hrun ih =>
    obtain ⟨s3, h3, hi3⟩ := update_list_inv env rets s ih
    rw [hrun] at h3
    exact Option.some.inj h3 ▸ hi3

/-! ### The sample states are reachable -/

theorem demo_step (addr : Ptr) (pid : Int) (args : List String) (s : Shell) (h : Reachable s)
    (hfresh : s.heap addr = none)
    (hrun : run_commands 0 (demo_env addr pid) args s
      = Outcome.running (demo_run addr pid args s)) :
    Reachable (demo_run addr pid args s) :=
  Reachable.command s _ 0 (demo_env addr pid) args h hfresh hrun

theorem table1_reachable : Reachable table1 :=
  demo_step 101 1001 _ main_init Reachable.init rfl rfl

theorem table2_reachable : Reachable table2 :=
  demo_step 102 1002 _ table1 table1_reachable rfl rfl

theorem table3_reachable : Reachable table3 :=
  demo_step 103 1003 _ table2 table2_reachable rfl rfl

theorem table4_reachable : Reachable table4 :=
  demo_step 104 1004 _ table3 table3_reachable rfl rfl

theorem table5_reachable : Reachable table5 :=
  demo_step 105 1005 _ table4 table4_reachable rfl rfl

theorem Rep.live_length {s : Shell} {js : List (Ptr × job)} {rest : List (Option Ptr)}
    (h : Rep s js rest) : (s.live.length : Int) = s.num_bg_jobs := by
  rw [h.live_eq, h.num, List.length_map]

theorem Rep.live_nums {s : Shell} {js : List (Ptr × job)} {rest : List (Option Ptr)}
    (h : Rep s js rest) : s.live.map job.job_num = js.map (fun c => c.2.job_num) := by
  rw [h.live_eq, List.map_map]
  rfl

/-- Among the live cells, the pointer and the job number identify the same cell. -/
theorem Rep.same_cell {s : Shell} {js : List (Ptr × job)} {rest : List (Option Ptr)}
    (h : Rep s js rest) (hg : Good js) {c d : Ptr × job} (hc : c ∈ js) (hd : d ∈ js) :
    d.1 = c.1 ↔ d.2.job_num = c.2.job_num := by
  constructor
  · intro e
    have h1 := h.heap d hd
    rw [e, h.heap c hc] at h1
    rw [Option.some.inj h1]
  · intro e
    have := List.inj_on_of_nodup_map hg.nums hd hc e
    rw [this]

/-! ### Claim C1: the table is bounded -/

/-- C1: in every reachable state the counter `num_bg_jobs` lies between 0 and
`MAX_JOBS` and counts the live jobs; when it equals `MAX_JOBS`, the command `bg`
returns to the main loop having only printed the capacity message (no `fork`
is performed) and leaves `bg_list`, the counter and the job records unchanged. -/
theorem C1_table_bounded (s : Shell) (h : Reachable s) :
    (0 ≤ s.num_bg_jobs ∧ s.num_bg_jobs ≤ MAX_JOBS) ∧
    (s.live.length : Int) = s.num_bg_jobs ∧
    (s.num_bg_jobs = MAX_JOBS → ∀ (fuel : Nat) (env : Env) (cmd : List String),
      ∃ s2, run_commands fuel env ("bg" :: cmd) s = Outcome.running s2 ∧
        s2.bg_list = s.bg_list ∧ s2.num_bg_jobs = s.num_bg_jobs ∧ s2.heap = s.heap ∧
        s2.live = s.live ∧
        s2.trace = s.trace ++ [Event.stdout
          ("shell: " ++ env.cwd ++ " > " ++ "Maximum amount of background jobs already active"
            ++ "\n")]) := by
  obtain ⟨js, rest, hr, hg⟩ := h.inv
  refine ⟨⟨?_, ?_⟩, hr.live_length, ?_⟩
  · rw [hr.num]
    omega
  · have := hr.len
    rw [hr.num]
    omega
  · intro hfull fuel env cmd
    have hge : s.num_bg_jobs ≥ (MAX_JOBS : Int) := by omega
    refine ⟨display_shell env "Maximum amount of background jobs already active" s,
      ?_, rfl, rfl, rfl, rfl, ?_⟩
    · simp [run_commands, hge]
    · rfl

theorem C1_table_bounded_witness :
    Reachable table5 ∧ table5.num_bg_jobs = MAX_JOBS ∧
    (0 ≤ table5.num_bg_jobs ∧ table5.num_bg_jobs ≤ MAX_JOBS) ∧
    ∃ s2, run_commands 0 (demo_env 106 1006) ["bg", "echo", "hi"] table5 = Outcome.running s2 ∧
      s2.bg_list = table5.bg_list ∧ s2.num_bg_jobs = table5.num_bg_jobs ∧
      s2.heap = table5.heap ∧ s2.live = table5.live ∧
      s2.trace = table5.trace ++ [Event.stdout
        ("shell: " ++ (demo_env 106 1006).cwd ++ " > "
          ++ "Maximum amount of background jobs already active" ++ "\n")] :=
  ⟨table5_reachable, by decide, (C1_table_bounded table5 table5_reachable).1,
    (C1_table_bounded table5 table5_reachable).2.2 (by decide) 0 (demo_env 106 1006)
      ["echo", "hi"]⟩

/-! ### Claim C2: live job numbers are distinct -/

/-- C2: in every reachable state the job numbers of the live jobs (the first
`num_bg_jobs` entries of `bg_list`) are pairwise distinct, and `assign_job_num`,
run as `build_job` runs it on a freshly allocated record, returns and gives that
record a number no live job holds. -/
theorem C2_job_numbers_distinct (s : Shell) (h : Reachable s) :
    (s.live.map job.job_num).Nodup ∧
    ∀ (j : Ptr) (r : job), s.heap j = none →
      ∃ n, assign_job_num j (store s j r)
          = some (store (store s j r) j { r with job_num := n }) ∧
        n ∉ s.live.map job.job_num := by
  obtain ⟨js, rest, hr, hg⟩ := h.inv
  refine ⟨by rw [hr.live_nums]; exact hg.nums, ?_⟩
  intro j r hj
  have hrep1 : Rep (store s j r) js rest :=
    hr.of_frame rfl rfl (fun c hc => by
      have : c.1 ≠ j := fun e => hr.fresh hj (e ▸ List.mem_map_of_mem Prod.fst hc)
      simp [store, this])
  refine ⟨next_num (js.map (fun c => c.2.job_num)) 0, ?_, ?_⟩
  · have hj2 : (store s j r).heap j = some r := by simp [store]
    simp only [assign_job_num, hrep1.highest, hj2]
  · rw [hr.live_nums]
    intro hm
    exact lt_irrefl _ (next_num_gt _ 0 _ hm)

theorem C2_job_numbers_distinct_witness :
    Reachable table3 ∧ (table3.live.map job.job_num).Nodup ∧
    ∃ n, assign_job_num 104 (store table3 104 (demo_env 104 1004).junk)
        = some (store (store table3 104 (demo_env 104 1004).junk) 104
            { (demo_env 104 1004).junk with job_num := n }) ∧
      n ∉ table3.live.map job.job_num :=
  ⟨table3_reachable, (C2_job_numbers_distinct table3 table3_reachable).1,
    (C2_job_numbers_distinct table3 table3_reachable).2 104 _ rfl⟩

/-! ### Claim C3: the number of a new job -/

theorem killed0_reachable : Reachable killed0 :=
  demo_step 0 0 _ table3 table3_reachable rfl rfl

theorem next_num_cases (nums : List Int) : ∀ h0 : Int,
    next_num nums h0 = h0 ∨ ∃ n ∈ nums, next_num nums h0 = n + 1 := by
  induction nums with
  | nil => intro h0; exact Or.inl rfl
  | cons n nums ih =>
    intro h0
    simp only [next_num, List.foldl_cons]
    have := ih (if n ≥ h0 then n + 1 else h0)
    simp only [next_num] at this
    by_cases hc : n ≥ h0
    · rw [if_pos hc] at this ⊢
      rcases this with e | ⟨m, hm, e⟩
      · exact Or.inr ⟨n, by simp, e⟩
      · exact Or.inr ⟨m, by simp [hm], e⟩
    · rw [if_neg hc] at this ⊢
      rcases this with e | ⟨m, hm, e⟩
      · exact Or.inl e
      · exact Or.inr ⟨m, by simp [hm], e⟩

/-- C3, as stated, fails: with live jobs 1 and 2 (job 0 was removed by `bgkill 0`)
the next `bg` job gets number 3, while the smallest unused number is 0. -/
theorem C3_counterexample :
    Reachable killed0 ∧ killed0.num_bg_jobs < MAX_JOBS ∧
    killed0.live.map job.job_num = [1, 2] ∧
    run_commands 0 (demo_env 104 1004) ["bg", "sleep", "80"] killed0
      = Outcome.running relaunched ∧
    relaunched.live.map job.job_num = [1, 2, 3] ∧
    ¬ smallest_unused (killed0.live.map job.job_num) 3 := by
  refine ⟨killed0_reachable, by decide, by decide, rfl, by decide, ?_⟩
  rintro ⟨_, _, h⟩
  have := h 0 (by decide) (by decide)
  omega

/-- C3, amended: in every reachable state with fewer than `MAX_JOBS` live jobs a
successful `bg` launch appends one job to the live jobs, and the number
`assign_job_num` gives it is 0 when the table is empty and otherwise one more than
the largest number of a live job; so it is larger than every live number. -/
theorem C3_next_number (s : Shell) (h : Reachable s) (fuel : Nat) (env : Env)
    (cmd : List String) (hroom : s.num_bg_jobs < MAX_JOBS)
    (hfresh : s.heap env.malloc_ret = none) (hfork : 0 < env.fork_ret) :
    ∃ s2 num, run_commands fuel env ("bg" :: cmd) s = Outcome.running s2 ∧
      s2.live = s.live ++ [launched env cmd s num] ∧
      (∀ r ∈ s.live, r.job_num < num) ∧
      (s.live = [] → num = 0) ∧
      (s.live ≠ [] → ∃ r ∈ s.live, num = r.job_num + 1) := by
  obtain ⟨js, rest, hr, hg⟩ := h.inv
  obtain ⟨s2, t, rest2, rfl, hrun, hbg, hnum, hheap, _⟩ := bg_spec fuel env cmd hr hfresh hroom hfork
  obtain ⟨hr2, _⟩ := launch_rep hr hg hfresh hbg hnum hheap rfl hfork
  have hgt : ∀ r ∈ s.live, r.job_num < next_num (js.map (fun c => c.2.job_num)) 0 := by
    intro r hrm
    have : r.job_num ∈ s.live.map job.job_num := List.mem_map_of_mem _ hrm
    rw [hr.live_nums] at this
    exact next_num_gt _ 0 _ this
  refine ⟨s2, next_num (js.map (fun c => c.2.job_num)) 0, hrun, ?_, hgt, ?_, ?_⟩
  · rw [hr2.live_eq, hr.live_eq]
    simp
  · intro he
    rw [hr.live_eq] at he
    have : js = [] := by simpa using he
    subst this
    rfl
  · intro hne
    rcases next_num_cases (js.map (fun c => c.2.job_num)) 0 with e | ⟨n, hn, e⟩
    · exfalso
      obtain ⟨r, hrm⟩ := List.exists_mem_of_ne_nil _ hne
      have h1 := hgt r hrm
      have h2 : r.job_num ∈ s.live.map job.job_num := List.mem_map_of_mem _ hrm
      rw [hr.live_nums] at h2
      obtain ⟨c, hc, hcn⟩ := List.mem_map.1 h2
      have h3 := hg.nonneg c hc
      omega
    · rw [← hr.live_nums] at hn
      obtain ⟨r, hrm, hrn⟩ := List.mem_map.1 hn
      exact ⟨r, hrm, by rw [e, hrn]⟩

theorem C3_next_number_witness :
    Reachable killed0 ∧ killed0.num_bg_jobs < MAX_JOBS ∧
    ∃ s2 num, run_commands 0 (demo_env 104 1004) ("bg" :: ["sleep", "80"]) killed0
        = Outcome.running s2 ∧
      s2.live = killed0.live ++ [launched (demo_env 104 1004) ["sleep", "80"] killed0 num] ∧
      (∀ r ∈ killed0.live, r.job_num < num) ∧
      (killed0.live = [] → num = 0) ∧
      (killed0.live ≠ [] → ∃ r ∈ killed0.live, num = r.job_num + 1) :=
  ⟨killed0_reachable, by decide,
    C3_next_number killed0 killed0_reachable 0 (demo_env 104 1004) ["sleep", "80"]
      (by decide) rfl (by decide)⟩

/-! ### Claim C4: `bgkill` -/

/-- C4: for every reachable state and every number `n` of a live job, `bgkill n`
returns to the main loop; afterwards `job_exists n` is false and `get_job_by_num n`
returns `NULL`, the counter has dropped by one, the live jobs are the former
ones without job `n`, in the same order and with unchanged records, and each of
them is found under its own number. -/
theorem C4_bgkill_removes (s : Shell) (h : Reachable s) (fuel : Nat) (env : Env)
    (a : String) (more : List String) (n : Int) (ha : atoi a = n)
    (hn : n ∈ s.live.map job.job_num) :
    ∃ s2, run_commands fuel env ("bgkill" :: a :: more) s = Outcome.running s2 ∧
      job_exists n s2 = some false ∧
      (∀ env2, get_job_by_num env2 n s2
        = some (none, display_shell env2 ("Job " ++ toString n ++ " doesnt exist") s2)) ∧
      s2.num_bg_jobs = s.num_bg_jobs - 1 ∧
      (s2.live.length : Int) = s2.num_bg_jobs ∧
      s2.live = s.live.filter (fun r => r.job_num ≠ n) ∧
      (∀ r ∈ s.live, r.job_num ≠ n → ∀ env2,
        ∃ p, get_job_by_num env2 r.job_num s2 = some (some p, s2) ∧ s2.heap p = some r) := by
  obtain ⟨js, rest, hr, hg⟩ := h.inv
  rw [hr.live_nums] at hn
  obtain ⟨c, hc, hcn⟩ := List.mem_map.1 hn
  obtain ⟨s2, rest2, hrm, hr2, hg2, hnum2, _⟩ :=
    Inv.remove hr hg hc (Event.kill c.2.pid Signal.SIGKILL)
  have hfil : js.filter (fun d => d.1 ≠ c.1) = js.filter (fun d => d.2.job_num ≠ n) := by
    apply List.filter_congr
    intro d hd
    have := hr.same_cell hg hc hd
    simp only [ne_eq, decide_not, Bool.not_eq_eq_eq_not, Bool.not_not, decide_eq_decide]
    rw [this, hcn]
  have habs : n ∉ (js.filter (fun d => d.1 ≠ c.1)).map (fun c => c.2.job_num) := by
    rw [hfil]
    intro hm
    obtain ⟨d, hd, hdn⟩ := List.mem_map.1 hm
    have := (List.mem_filter.1 hd).2
    simp only [ne_eq, decide_not, Bool.not_eq_eq_eq_not, Bool.not_true,
      decide_eq_false_iff_not] at this
    exact this hdn
  refine ⟨s2, ?_, ?_, ?_, hnum2, hr2.live_length, ?_, ?_⟩
  · rw [bgkill_live fuel env a more hr hg hc (ha.trans hcn.symm), hrm]
    rfl
  · rw [hr2.job_exists_eq, decide_eq_false habs]
  · intro env2
    exact hr2.get_job_by_num_absent env2 habs
  · rw [hr2.live_eq, hr.live_eq, hfil, List.filter_map]
    rfl
  · intro r hrm2 hrn env2
    rw [hr.live_eq] at hrm2
    obtain ⟨d, hd, rfl⟩ := List.mem_map.1 hrm2
    have hd2 : d ∈ js.filter (fun d => d.1 ≠ c.1) := by
      rw [hfil]
      exact List.mem_filter.2 ⟨hd, by simpa using hrn⟩
    exact ⟨d.1, hr2.get_job_by_num_live hg2 env2 hd2, hr2.heap d hd2⟩

theorem C4_bgkill_removes_witness :
    Reachable table5 ∧ atoi "0" = 0 ∧ (0 : Int) ∈ table5.live.map job.job_num ∧
    ∃ s2, run_commands 0 (demo_env 0 0) ("bgkill" :: "0" :: []) table5 = Outcome.running s2 ∧
      job_exists 0 s2 = some false ∧
      (∀ env2, get_job_by_num env2 0 s2
        = some (none, display_shell env2 ("Job " ++ toString (0 : Int) ++ " doesnt exist") s2)) ∧
      s2.num_bg_jobs = table5.num_bg_jobs - 1 ∧
      (s2.live.length : Int) = s2.num_bg_jobs ∧
      s2.live = table5.live.filter (fun r => r.job_num ≠ 0) ∧
      (∀ r ∈ table5.live, r.job_num ≠ 0 → ∀ env2,
        ∃ p, get_job_by_num env2 r.job_num s2 = some (some p, s2) ∧ s2.heap p = some r) :=
  ⟨table5_reachable, by decide, by decide,
    C4_bgkill_removes table5 table5_reachable 0 (demo_env 0 0) "0" [] 0 (by decide) (by decide)⟩

/-! ### Claim C5: `kill_all_jobs` -/

/-- C5 at the failing input, a full table of five jobs: `remove_job` moves the
slots down without clearing the last one, so after the five live jobs are removed
`bg_list[0]` still holds the pointer of the freed fifth job; the sixth test of the
`while` loop succeeds and `j->pid` reads the freed record.  `kill_all_jobs` never
returns with an empty table, whatever the bound on its iterations.  From four
jobs, a table that was never full, it does return with every slot empty. -/
theorem C5_kill_all_full :
    (∀ k : Nat, kill_all_jobs (k + 6) table5 = Outcome.undefined) ∧
    (∀ (fuel : Nat) (s2 : Shell), kill_all_jobs fuel table5 ≠ Outcome.running s2) ∧
    (∃ s2, kill_all_jobs 5 table4 = Outcome.running s2 ∧ s2.num_bg_jobs = 0 ∧
      s2.bg_list = [none, none, none, none, none]) := by
  have h6 : ∀ k : Nat, kill_all_jobs (k + 6) table5 = Outcome.undefined := fun _ => rfl
  refine ⟨h6, ?_, ⟨(kill_all_jobs 5 table4).state, rfl, by decide, by decide⟩⟩
  intro fuel s2 hrun
  rcases fuel with _ | _ | _ | _ | _ | _ | k
  · exact Outcome.noConfusion ((rfl : kill_all_jobs 0 table5 = Outcome.unfinished).symm.trans hrun)
  · exact Outcome.noConfusion ((rfl : kill_all_jobs 1 table5 = Outcome.unfinished).symm.trans hrun)
  · exact Outcome.noConfusion ((rfl : kill_all_jobs 2 table5 = Outcome.unfinished).symm.trans hrun)
  · exact Outcome.noConfusion ((rfl : kill_all_jobs 3 table5 = Outcome.unfinished).symm.trans hrun)
  · exact Outcome.noConfusion ((rfl : kill_all_jobs 4 table5 = Outcome.unfinished).symm.trans hrun)
  · exact Outcome.noConfusion ((rfl : kill_all_jobs 5 table5 = Outcome.unfinished).symm.trans hrun)
  · exact Outcome.noConfusion ((h6 k).symm.trans hrun)

/-! ### Claim C7: failure of `fork` -/

/-- C7, as stated, fails: with two live jobs, a `bg` launch whose `fork` returns -1
ends in `exit(1)`, not in a return to the main loop, and the job inserted before
the `fork` is still the third entry of the table. -/
theorem C7_counterexample :
    run_commands 0 (demo_env 103 (-1)) ["bg", "sleep", "70"] table2
      = Outcome.exited 1 failed_launch ∧
    table2.num_bg_jobs = 2 ∧ table2.live_ptrs = [101, 102] ∧
    failed_launch.num_bg_jobs = 3 ∧ failed_launch.live_ptrs = [101, 102, 103] := by
  refine ⟨rfl, by decide, by decide, by decide, by decide⟩

/-- C7, amended: when `fork` returns a negative value, `execute_job` reports the
failure with `perror("fork")` and the shell process ends with `exit(1)`; a
background job is at that point still in the slot where it was inserted before
the `fork`, with the counter incremented. -/
theorem C7_fork_failure_exits (env : Env) (j : Ptr) (s : Shell) (r0 : job)
    (hj : s.heap j = some r0)
    (hroom : r0.foreground = 0 → 0 ≤ s.num_bg_jobs ∧ s.num_bg_jobs.toNat < s.bg_list.length)
    (hfork : env.fork_ret < 0) :
    ∃ s2, execute_job env j s = Outcome.exited 1 s2 ∧
      s2.trace = s.trace ++ [Event.fork env.fork_ret, Event.perror "fork"] ∧
      s2.heap j = some { r0 with status := TRUE } ∧
      (r0.foreground = 0 →
        s2.num_bg_jobs = s.num_bg_jobs + 1 ∧
        rd s2.bg_list s.num_bg_jobs.toNat = some (some j)) := by
  have h0 : ¬ env.fork_ret = 0 := by omega
  by_cases hf : r0.foreground = 0
  · obtain ⟨hn, hlt⟩ := hroom hf
    have hn2 : ¬ s.num_bg_jobs < 0 := by omega
    refine ⟨emit (emit (store { s with
        bg_list := s.bg_list.set s.num_bg_jobs.toNat (some j)
        num_bg_jobs := s.num_bg_jobs + 1 } j { r0 with status := TRUE })
        (Event.fork env.fork_ret)) (Event.perror "fork"), ?_, ?_, ?_, ?_⟩
    · simp only [execute_job, hj, hf, if_true, hn2, if_false, wr, hlt, h0, hfork]
    · simp [emit, store]
    · simp [emit, store]
    · intro _
      refine ⟨rfl, ?_⟩
      simp [emit, store, rd, hlt]
  · refine ⟨emit (emit (store s j { r0 with status := TRUE })
        (Event.fork env.fork_ret)) (Event.perror "fork"), ?_, ?_, ?_, ?_⟩
    · simp only [execute_job, hj, hf, if_false, h0, hfork, if_true]
    · simp [emit, store]
    · simp [emit, store]
    · intro hc
      exact absurd hc hf

theorem C7_fork_failure_exits_witness :
    (store table2 103 (demo_env 103 (-1)).junk).heap 103 = some (demo_env 103 (-1)).junk ∧
    (demo_env 103 (-1)).fork_ret < 0 ∧
    ∃ s2, execute_job (demo_env 103 (-1)) 103 (store table2 103 (demo_env 103 (-1)).junk)
        = Outcome.exited 1 s2 ∧
      s2.trace = (store table2 103 (demo_env 103 (-1)).junk).trace
        ++ [Event.fork (demo_env 103 (-1)).fork_ret, Event.perror "fork"] ∧
      s2.heap 103 = some { (demo_env 103 (-1)).junk with status := TRUE } ∧
      ((demo_env 103 (-1)).junk.foreground = 0 →
        s2.num_bg_jobs = (store table2 103 (demo_env 103 (-1)).junk).num_bg_jobs + 1 ∧
        rd s2.bg_list (store table2 103 (demo_env 103 (-1)).junk).num_bg_jobs.toNat
          = some (some 103)) :=
  ⟨rfl, by decide,
    C7_fork_failure_exits (demo_env 103 (-1)) 103 (store table2 103 (demo_env 103 (-1)).junk)
      (demo_env 103 (-1)).junk rfl (fun _ => by decide) (by decide)⟩

/-! ### Claim C8: `stop` and `start` -/

theorem Rep.live_set_status {s : Shell} {js : List (Ptr × job)} {rest : List (Option Ptr)}
    (h : Rep s js rest) (hg : Good js) {c : Ptr × job} (hc : c ∈ js) (v : Int) :
    (js.map (set_status c.1 v)).map Prod.snd
      = s.live.map (fun r => if r.job_num = c.2.job_num then { r with status := v } else r) := by
  rw [h.live_eq, List.map_map, List.map_map]
  apply List.map_congr_left
  intro d hd
  have hiff := h.same_cell hg hc hd
  by_cases e : d.1 = c.1
  · simp [set_status, e, hiff.1 e]
  · have e2 : ¬ d.2.job_num = c.2.job_num := fun x => e (hiff.2 x)
    simp [set_status, e, e2]

/-- C8: for every reachable state and every number `n` of a live job, `stop n`
and then `start n` both return to the main loop.  After `stop n` job `n` has
status 0 (shown as `s`); after the following `start n` it has status 1 (non-zero,
shown as `r`).  In both states every other field of job `n`, every other live
job, `bg_list` and `num_bg_jobs` are as before. -/
theorem C8_stop_start (s : Shell) (h : Reachable s) (fuel1 fuel2 : Nat) (env1 env2 : Env)
    (a : String) (more1 more2 : List String) (n : Int) (ha : atoi a = n)
    (hn : n ∈ s.live.map job.job_num) :
    ∃ s1 s2, run_commands fuel1 env1 ("stop" :: a :: more1) s = Outcome.running s1 ∧
      run_commands fuel2 env2 ("start" :: a :: more2) s1 = Outcome.running s2 ∧
      s1.live = s.live.map (fun r => if r.job_num = n then { r with status := 0 } else r) ∧
      s2.live = s.live.map (fun r => if r.job_num = n then { r with status := 1 } else r) ∧
      status 0 = 's' ∧ status 1 = 'r' ∧
      s1.bg_list = s.bg_list ∧ s2.bg_list = s.bg_list ∧
      s1.num_bg_jobs = s.num_bg_jobs ∧ s2.num_bg_jobs = s.num_bg_jobs := by
  obtain ⟨js, rest, hr, hg⟩ := h.inv
  rw [hr.live_nums] at hn
  obtain ⟨c, hc, hcn⟩ := List.mem_map.1 hn
  have hr1 : Rep (emit (store s c.1 { c.2 with status := FALSE })
      (Event.kill c.2.pid Signal.SIGTSTP)) (js.map (set_status c.1 FALSE)) rest :=
    (hr.store_status hc FALSE).after_emit _
  have hg1 : Good (js.map (set_status c.1 FALSE)) := hg.after_status _ _
  have hc1 : set_status c.1 FALSE c ∈ js.map (set_status c.1 FALSE) :=
    List.mem_map_of_mem _ hc
  have e1 : set_status c.1 FALSE c = (c.1, { c.2 with status := FALSE }) := by
    simp [set_status]
  rw [e1] at hc1
  have hr2 := (hr1.store_status hc1 TRUE).after_emit (Event.kill c.2.pid Signal.SIGCONT)
  have hstart := start_live fuel2 env2 a more2 hr1 hg1 hc1 (ha.trans hcn.symm)
  refine ⟨_, _, stop_live fuel1 env1 a more1 hr hg hc (ha.trans hcn.symm), hstart, ?_, ?_,
    by decide, by decide, rfl, rfl, rfl, rfl⟩
  · rw [hr1.live_eq, hr.live_set_status hg hc, hcn]
    rfl
  · rw [hr2.live_eq, hr1.live_set_status hg1 hc1, hr1.live_eq, hr.live_set_status hg hc,
      List.map_map, hcn]
    apply List.map_congr_left
    intro r _
    by_cases e : r.job_num = n <;> simp [e, TRUE]

theorem C8_stop_start_witness :
    Reachable table3 ∧ atoi "1" = 1 ∧ (1 : Int) ∈ table3.live.map job.job_num ∧
    ∃ s1 s2, run_commands 0 (demo_env 0 0) ("stop" :: "1" :: []) table3 = Outcome.running s1 ∧
      run_commands 0 (demo_env 0 0) ("start" :: "1" :: []) s1 = Outcome.running s2 ∧
      s1.live = table3.live.map (fun r => if r.job_num = 1 then { r with status := 0 } else r) ∧
      s2.live = table3.live.map (fun r => if r.job_num = 1 then { r with status := 1 } else r) ∧
      status 0 = 's' ∧ status 1 = 'r' ∧
      s1.bg_list = table3.bg_list ∧ s2.bg_list = table3.bg_list ∧
      s1.num_bg_jobs = table3.num_bg_jobs ∧ s2.num_bg_jobs = table3.num_bg_jobs :=
  ⟨table3_reachable, by decide, by decide,
    C8_stop_start table3 table3_reachable 0 0 (demo_env 0 0) (demo_env 0 0) "1" [] [] 1
      (by decide) (by decide)⟩

/-! ### Claim C9: `bg sleep 50` and `bglist` -/

/-- C9, as stated, fails: after `bg sleep 50` from the empty table, `bglist`
prints the line `0[r]:  /home/user/sleep` (the command name only), not
`0[r]:  /home/user/sleep 50`. -/
theorem C9_counterexample :
    main_iteration 0 (demo_env 101 1001) [] "bg sleep 50" main_init = Outcome.running after_bg ∧
    after_bg.live.map job.args = [["sleep", "50"]] ∧
    after_bg.live.map job.job_num = [0] ∧
    main_iteration 0 (demo_env 0 0) [] "bglist" after_bg = Outcome.running after_bglist ∧
    after_bglist.trace = after_bg.trace ++
      [Event.stdout "0[r]:  /home/user/sleep\n", Event.stdout "Total background jobs: 1\n"] ∧
    Event.stdout "0[r]:  /home/user/sleep 50\n" ∉ after_bglist.trace := by
  refine ⟨rfl, by decide, by decide, rfl, by decide, by decide⟩

theorem bglist_line (cwd : String) :
    toString (0 : Int) ++ "[" ++ String.singleton (status (-1)) ++ "]:  " ++ cwd ++ "/"
      ++ strip_dot_slash "sleep" ++ "\n" = "0[r]:  " ++ cwd ++ "/sleep\n" := by
  apply String.ext
  simp only [String.data_append]
  have e1 : (toString (0 : Int)).data ++ "[".data ++ (String.singleton (status (-1))).data
      ++ "]:  ".data = "0[r]:  ".data := by decide
  have e2 : "/".data ++ (strip_dot_slash "sleep").data ++ "\n".data = "/sleep\n".data := by
    decide
  rw [e1, List.append_assoc, List.append_assoc, List.append_assoc, ← List.append_assoc "/".data,
    e2, List.append_assoc]

/-- C9, amended: from any reachable state with an empty table, once the round of
the main loop that reads `bg sleep 50` has launched the job (the `fork` succeeded
and no child has terminated), the table holds exactly one job, with number 0,
arguments `sleep 50`, the current directory, and status -1 (running, shown as
`r`); the next round reading `bglist` prints exactly the line
`0[r]:  <cwd>/sleep`, with the command name only, and then
`Total background jobs: 1`. -/
theorem C9_bg_then_bglist (s : Shell) (h : Reachable s) (hempty : s.num_bg_jobs = 0)
    (fuel fuel2 : Nat) (env env2 : Env)
    (hfresh : s.heap env.malloc_ret = none) (hfork : 0 < env.fork_ret) :
    ∃ s1 s2, main_iteration fuel env [] "bg sleep 50" s = Outcome.running s1 ∧
      s1.live = [{ args := ["sleep", "50"], dir := env.cwd, pid := env.fork_ret,
                   pgid := if s.shell_is_interactive ≠ 0 then env.fork_ret else 0,
                   status := -1, job_num := 0, foreground := 0 }] ∧
      s1.num_bg_jobs = 1 ∧ status (-1) = 'r' ∧
      main_iteration fuel2 env2 [] "bglist" s1 = Outcome.running s2 ∧
      s2.trace = s1.trace ++ [Event.stdout ("0[r]:  " ++ env.cwd ++ "/sleep\n"),
        Event.stdout "Total background jobs: 1\n"] := by
  obtain ⟨js, rest, hr, hg⟩ := h.inv
  have hjs : js = [] := by
    have := hr.num
    rw [hempty] at this
    exact List.length_eq_zero.1 (by omega)
  subst hjs
  have hr0 : Rep (display_prompt env.cwd s) [] rest := hr.of_frame rfl rfl (fun _ _ => rfl)
  have hroom : (display_prompt env.cwd s).num_bg_jobs < MAX_JOBS := by
    show s.num_bg_jobs < MAX_JOBS
    rw [hempty]
    decide
  obtain ⟨s1, t, rest2, rfl, hrun, hbg, hnum, hheap, htr, _⟩ :=
    bg_spec fuel env ["sleep", "50"] hr0 hfresh hroom hfork
  obtain ⟨hr1, _⟩ := launch_rep hr0 ⟨by simp, by simp, by simp⟩ hfresh hbg hnum hheap rfl hfork
  have e1 : main_iteration fuel env [] "bg sleep 50" s = Outcome.running s1 := by
    show (match run_commands fuel env ["bg", "sleep", "50"] (display_prompt env.cwd s) with
      | Outcome.running s1 => Outcome.ofOption (update_list env [] s1)
      | o => o) = Outcome.running s1
    rw [hrun]
    rfl
  have hnum1 : s1.num_bg_jobs = 1 := by
    rw [hnum]
    show s.num_bg_jobs + 1 = 1
    rw [hempty]
    rfl
  have hlive : s1.live = [launched env ["sleep", "50"] (display_prompt env.cwd s) 0] := by
    rw [hr1.live_eq]
    rfl
  have hr1p : Rep (display_prompt env2.cwd s1)
      [(env.malloc_ret, launched env ["sleep", "50"] (display_prompt env.cwd s) 0)] rest2 :=
    hr1.of_frame rfl rfl (fun _ _ => rfl)
  have hjob := job_at_mid (display_prompt env2.cwd s1) []
    (env.malloc_ret, launched env ["sleep", "50"] (display_prompt env.cwd s) 0) rest2
    (by simpa using hr1p.bg) (hr1p.heap _ (by simp))
  simp only [List.length_nil] at hjob
  have hn : (display_prompt env2.cwd s1).num_bg_jobs.toNat = 1 := by
    show s1.num_bg_jobs.toNat = 1
    rw [hnum1]
    rfl
  refine ⟨s1, emit (emit (display_prompt env2.cwd s1)
      (Event.stdout (toString (0 : Int) ++ "[" ++ String.singleton (status (-1)) ++ "]:  "
        ++ env.cwd ++ "/" ++ strip_dot_slash "sleep" ++ "\n")))
      (Event.stdout ("Total background jobs: " ++ toString (1 : Int) ++ "\n")),
    e1, hlive, hnum1, by decide, ?_, ?_⟩
  · show (match run_commands fuel2 env2 ["bglist"] (display_prompt env2.cwd s1) with
      | Outcome.running s1 => Outcome.ofOption (update_list env2 [] s1)
      | o => o) = _
    have e2 : run_commands fuel2 env2 ["bglist"] (display_prompt env2.cwd s1) =
        (match bglist_loop (display_prompt env2.cwd s1).num_bg_jobs.toNat 0
            (display_prompt env2.cwd s1) with
        | none => Outcome.undefined
        | some s3 => Outcome.running (emit s3 (Event.stdout ("Total background jobs: "
            ++ toString (display_prompt env2.cwd s1).num_bg_jobs ++ "\n")))) := by
      rfl
    rw [e2, hn]
    simp only [bglist_loop, hjob]
    have e3 : (display_prompt env2.cwd s1).num_bg_jobs = 1 := hnum1
    rw [e3]
    rfl
  · have e4 : "Total background jobs: " ++ toString (1 : Int) ++ "\n"
        = "Total background jobs: 1\n" := by decide
    rw [bglist_line, e4]
    show (s1.trace ++ [_]) ++ [_] = _
    rw [List.append_assoc]
    rfl

theorem C9_bg_then_bglist_witness :
    Reachable main_init ∧ main_init.num_bg_jobs = 0 ∧
    main_init.heap (demo_env 101 1001).malloc_ret = none ∧ 0 < (demo_env 101 1001).fork_ret ∧
    ∃ s1 s2, main_iteration 0 (demo_env 101 1001) [] "bg sleep 50" main_init
        = Outcome.running s1 ∧
      s1.live = [{ args := ["sleep", "50"], dir := (demo_env 101 1001).cwd,
                   pid := (demo_env 101 1001).fork_ret,
                   pgid := if main_init.shell_is_interactive ≠ 0
                     then (demo_env 101 1001).fork_ret else 0,
                   status := -1, job_num := 0, foreground := 0 }] ∧
      s1.num_bg_jobs = 1 ∧ status (-1) = 'r' ∧
      main_iteration 0 (demo_env 0 0) [] "bglist" s1 = Outcome.running s2 ∧
      s2.trace = s1.trace ++
        [Event.stdout ("0[r]:  " ++ (demo_env 101 1001).cwd ++ "/sleep\n"),
         Event.stdout "Total background jobs: 1\n"] :=
  ⟨Reachable.init, rfl, rfl, by decide,
    C9_bg_then_bglist main_init Reachable.init rfl 0 0 (demo_env 101 1001) (demo_env 0 0) rfl
      (by decide)⟩

/-! ### Claim C10: pid and pgid after a launch -/

/-- C10, as stated, fails: in the shell as `main` starts it (`init_shell` is never
called, `shell_is_interactive` is 0) the job launched by `bg sleep 50` with child
pid 1001 has `pid = 1001` and `pgid = 0`. -/
theorem C10_counterexample :
    main_init.shell_is_interactive = 0 ∧
    main_iteration 0 (demo_env 101 1001) [] "bg sleep 50" main_init = Outcome.running after_bg ∧
    after_bg.live.map job.pid = [1001] ∧
    after_bg.live.map job.pgid = [0] := by
  refine ⟨rfl, rfl, by decide, by decide⟩

/-- C10, amended: when `fork` returns a child pid `p > 0`, `execute_job` returns to
its caller with `pid = p` in the job record and status -1; on a record whose
`pgid` is 0, as `build_job` leaves it, it sets `pgid = p` if
`shell_is_interactive` is non-zero and leaves `pgid = 0` if it is zero. -/
theorem C10_pid_and_pgid (env : Env) (j : Ptr) (s : Shell) (r0 : job)
    (hj : s.heap j = some r0) (hpg : r0.pgid = 0)
    (hroom : r0.foreground = 0 → 0 ≤ s.num_bg_jobs ∧ s.num_bg_jobs.toNat < s.bg_list.length)
    (hfork : 0 < env.fork_ret) :
    ∃ s2, execute_job env j s = Outcome.running s2 ∧
      s2.heap j = some { r0 with
        pid := env.fork_ret
        pgid := if s.shell_is_interactive ≠ 0 then env.fork_ret else 0
        status := -1 } := by
  have h0 : ¬ env.fork_ret = 0 := by omega
  have h1 : ¬ env.fork_ret < 0 := by omega
  by_cases hf : r0.foreground = 0
  · obtain ⟨hn, hlt⟩ := hroom hf
    have hn2 : ¬ s.num_bg_jobs < 0 := by omega
    by_cases hi : s.shell_is_interactive = 0
    · simp [execute_job, hj, hf, hn2, wr, hlt, h0, h1, hi, hpg, store, emit]
    · simp [execute_job, hj, hf, hn2, wr, hlt, h0, h1, hi, hpg, store, emit]
  · by_cases hi : s.shell_is_interactive = 0
    · simp [execute_job, hj, hf, h0, h1, hi, hpg, store, emit]
    · simp [execute_job, hj, hf, h0, h1, hi, hpg, store, emit]

theorem C10_pid_and_pgid_witness :
    (store main_init 101 (demo_env 101 1001).junk).heap 101 = some (demo_env 101 1001).junk ∧
    (demo_env 101 1001).junk.pgid = 0 ∧ 0 < (demo_env 101 1001).fork_ret ∧
    ∃ s2, execute_job (demo_env 101 1001) 101 (store main_init 101 (demo_env 101 1001).junk)
        = Outcome.running s2 ∧
      s2.heap 101 = some { (demo_env 101 1001).junk with
        pid := (demo_env 101 1001).fork_ret
        pgid := if (store main_init 101 (demo_env 101 1001).junk).shell_is_interactive ≠ 0
          then (demo_env 101 1001).fork_ret else 0
        status := -1 } :=
  ⟨rfl, rfl, by decide,
    C10_pid_and_pgid (demo_env 101 1001) 101 (store main_init 101 (demo_env 101 1001).junk)
      (demo_env 101 1001).junk rfl rfl (fun _ => by decide) (by decide)⟩

/-! ### Claim C6: the reaper -/

theorem find_congr_mem {α : Type} (p q : α → Bool) (l : List α) (h : ∀ a ∈ l, p a = q a) :
    l.find? p = l.find? q := by
  induction l with
  | nil => rfl
  | cons a l ih =>
    have ha := h a (by simp)
    have hl := ih (fun b hb => h b (by simp [hb]))
    simp only [List.find?, ha, hl]

/-- Among live cells with pairwise distinct pids, the pointer and the pid identify
the same cell. -/
theorem Rep.same_cell_pid {s : Shell} {js : List (Ptr × job)} {rest : List (Option Ptr)}
    (h : Rep s js rest) (hp : (js.map (fun c => c.2.pid)).Nodup) {c d : Ptr × job}
    (hc : c ∈ js) (hd : d ∈ js) : d.1 = c.1 ↔ d.2.pid = c.2.pid := by
  constructor
  · intro e
    have h1 := h.heap d hd
    rw [e, h.heap c hc] at h1
    rw [Option.some.inj h1]
  · intro e
    have := List.inj_on_of_nodup_map hp hd hc e
    rw [this]

/-- The function `update_list` on a well-formed table whose live jobs have distinct
pids: it handles the first `k` results, each the pid of a job still in the table,
removes those jobs and announces them, and stops at result `k` (if any), which is
not the pid of a job still in the table. -/
theorem update_list_spec (env : Env) : ∀ (rets : List Int) (s : Shell)
    (js : List (Ptr × job)) (rest : List (Option Ptr)),
    Rep s js rest → Good js → (js.map (fun c => c.2.pid)).Nodup →
    ∃ k s2 rest2, k ≤ rets.length ∧ (rets.take k).Nodup ∧
      (∀ p ∈ rets.take k, p ∈ js.map (fun c => c.2.pid)) ∧
      (∀ p, rets.get? k = some p → p ∉ js.map (fun c => c.2.pid) ∨ p ∈ rets.take k) ∧
      update_list env rets s = some s2 ∧
      Rep s2 (js.filter (fun c => decide (c.2.pid ∉ rets.take k))) rest2 ∧
      s2.num_bg_jobs = s.num_bg_jobs - k ∧
      s2.trace = s.trace ++ (rets.take k).filterMap (announce (js.map Prod.snd)) := by
  intro rets
  induction rets with
  | nil =>
    intro s js rest h _ _
    refine ⟨0, s, rest, le_refl _, by simp, by simp, by simp, rfl, ?_, by simp, by simp⟩
    simpa using h
  | cons cpid rets ih =>
    intro s js rest h hg hp
    cases hf : js.find? (fun d => decide (cpid = d.2.pid)) with
    | none =>
      refine ⟨0, s, rest, Nat.zero_le _, by simp, by simp, ?_,
        update_list_untracked env cpid rets h hf, by simpa using h, by simp, by simp⟩
      intro p hp0
      simp only [List.get?_cons_zero, Option.some.injEq] at hp0
      subst hp0
      left
      intro hm
      obtain ⟨d, hd, hdp⟩ := List.mem_map.1 hm
      have := List.find?_eq_none.1 hf d hd
      simp only [decide_eq_true_eq] at this
      exact this hdp.symm
    | some c =>
      have hc : c ∈ js := List.mem_of_find?_eq_some hf
      have hcp : cpid = c.2.pid := by simpa using List.find?_some hf
      have hpos : 0 < cpid := hcp ▸ hg.pids c hc
      obtain ⟨s1, rest1, hrm, hr1, hg1, hnum1, htr1, _⟩ := Inv.remove h hg hc
        (Event.stdout ("Job " ++ toString c.2.job_num ++ " finished\n"))
      have hkey : ∀ d ∈ js, (d.1 ≠ c.1 ↔ d.2.pid ≠ cpid) := fun d hd => by
        rw [hcp]
        exact not_congr (h.same_cell_pid hp hc hd)
      have hfil : js.filter (fun d => decide (d.1 ≠ c.1))
          = js.filter (fun d => decide (d.2.pid ≠ cpid)) :=
        List.filter_congr (fun d hd => by simp only [hkey d hd])
      rw [hfil] at hr1 hg1
      have hp1 : ((js.filter (fun d => decide (d.2.pid ≠ cpid))).map (fun c => c.2.pid)).Nodup :=
        (List.filter_sublist js).map _ |>.nodup hp
      have hsub : ∀ p, p ∈ (js.filter (fun d => decide (d.2.pid ≠ cpid))).map (fun c => c.2.pid)
          ↔ p ∈ js.map (fun c => c.2.pid) ∧ p ≠ cpid := by
        intro p
        constructor
        · intro hm
          obtain ⟨d, hd, rfl⟩ := List.mem_map.1 hm
          obtain ⟨hd1, hd2⟩ := List.mem_filter.1 hd
          exact ⟨List.mem_map_of_mem (fun c => c.2.pid) hd1, by simpa using hd2⟩
        · rintro ⟨hm, hne⟩
          obtain ⟨d, hd, rfl⟩ := List.mem_map.1 hm
          have hd2 : d ∈ js.filter (fun d => decide (d.2.pid ≠ cpid)) :=
            List.mem_filter.2 ⟨hd, by simpa using hne⟩
          exact List.mem_map_of_mem (fun c => c.2.pid) hd2
      obtain ⟨k, s2, rest2, hk, hnd, hmem, hstop, hrun, hr2, hnum2, htr2⟩ :=
        ih s1 _ rest1 hr1 hg1 hp1
      have hnot : cpid ∉ rets.take k := fun hm => ((hsub cpid).1 (hmem cpid hm)).2 rfl
      refine ⟨k + 1, s2, rest2, ?_, ?_, ?_, ?_, ?_, ?_, ?_, ?_⟩
      · simp only [List.length_cons]
        omega
      · rw [List.take_succ_cons]
        exact List.nodup_cons.2 ⟨hnot, hnd⟩
      · intro p hpm
        rw [List.take_succ_cons] at hpm
        rcases List.mem_cons.1 hpm with rfl | hpm
        · rw [hcp]
          exact List.mem_map_of_mem (fun c => c.2.pid) hc
        · exact ((hsub p).1 (hmem p hpm)).1
      · intro p hpk
        rw [List.get?_cons_succ] at hpk
        rw [List.take_succ_cons]
        rcases hstop p hpk with h1 | h1
        · by_cases e : p = cpid
          · right
            simp [e]
          · left
            intro hm
            exact h1 ((hsub p).2 ⟨hm, e⟩)
        · right
          exact List.mem_cons_of_mem _ h1
      · rw [update_list_tracked env cpid rets h hg hpos hf, hrm]
        exact hrun
      · have e : js.filter (fun c => decide (c.2.pid ∉ List.take (k + 1) (cpid :: rets)))
            = (js.filter (fun d => decide (d.2.pid ≠ cpid))).filter
                (fun c => decide (c.2.pid ∉ rets.take k)) := by
          rw [List.filter_filter, List.take_succ_cons]
          apply List.filter_congr
          intro d _
          simp only [List.mem_cons, not_or, ne_eq, Bool.decide_and, Bool.and_comm]
        rw [e]
        exact hr2
      · rw [hnum2, hnum1]
        push_cast
        omega
      · rw [htr2, htr1, List.take_succ_cons, List.filterMap_cons]
        have ea : announce (js.map Prod.snd) cpid
            = some (Event.stdout ("Job " ++ toString c.2.job_num ++ " finished\n")) := by
          simp only [announce, List.find?_map, Function.comp_def, hf, Option.map_some']
        rw [ea]
        have eb : (rets.take k).filterMap
              (announce ((js.filter (fun d => decide (d.2.pid ≠ cpid))).map Prod.snd))
            = (rets.take k).filterMap (announce (js.map Prod.snd)) := by
          apply List.filterMap_congr
          intro p hpm
          have hne : p ≠ cpid := ((hsub p).1 (hmem p hpm)).2
          simp only [announce, List.find?_map, Function.comp_def, List.find?_filter]
          congr 2
          apply find_congr_mem
          intro d _
          by_cases e : p = d.2.pid
          · have : ¬ d.2.pid = cpid := fun x => hne (e.trans x)
            simp [e, this]
          · simp [e]
        rw [eb, List.append_assoc]
        rfl

/-- The function `update_list` only removes live cells. -/
theorem update_list_sub (env : Env) : ∀ (rets : List Int) (s : Shell)
    (js : List (Ptr × job)) (rest : List (Option Ptr)), Rep s js rest → Good js →
    ∃ s2 js2 rest2, update_list env rets s = some s2 ∧ Rep s2 js2 rest2 ∧ Good js2 ∧
      js2.Sublist js := by
  intro rets
  induction rets with
  | nil => intro s js rest h hg; exact ⟨s, js, rest, rfl, h, hg, List.Sublist.refl _⟩
  | cons cpid rets ih =>
    intro s js rest h hg
    cases hf : js.find? (fun d => decide (cpid = d.2.pid)) with
    | none =>
      exact ⟨s, js, rest, update_list_untracked env cpid rets h hf, h, hg, List.Sublist.refl _⟩
    | some c =>
      have hc : c ∈ js := List.mem_of_find?_eq_some hf
      have hcp : cpid = c.2.pid := by simpa using List.find?_some hf
      have hpos : 0 < cpid := hcp ▸ hg.pids c hc
      obtain ⟨s1, rest1, hrm, hr1, hg1, _⟩ := Inv.remove h hg hc
        (Event.stdout ("Job " ++ toString c.2.job_num ++ " finished\n"))
      obtain ⟨s2, js2, rest2, hrun, hr2, hg2, hsub⟩ := ih s1 _ rest1 hr1 hg1
      refine ⟨s2, js2, rest2, ?_, hr2, hg2, hsub.trans (List.filter_sublist js)⟩
      rw [update_list_tracked env cpid rets h hg hpos hf, hrm]
      exact hrun

/-- A job number absent from the table stays absent until a launch is assigned it. -/
theorem Avoids.absent {n : Int} {s s3 : Shell} (ha : Avoids n s s3) :
    (∃ js rest, Rep s js rest ∧ Good js ∧ n ∉ js.map (fun c => c.2.job_num)) →
    ∃ js3 rest3, Rep s3 js3 rest3 ∧ Good js3 ∧ n ∉ js3.map (fun c => c.2.job_num) := by
  induction ha with
  | refl => exact id
  | prompt s1 cwd _ ih =>
    intro h0
    obtain ⟨js, rest, h, hg, hn⟩ := ih h0
    exact ⟨js, rest, h.of_frame rfl rfl (fun _ _ => rfl), hg, hn⟩
  | command s1 s2 fuel env args _ hfresh hrun hcond ih =>
    intro h0
    obtain ⟨js, rest, h, hg, hn⟩ := ih h0
    obtain ⟨js2, rest2, h2, hg2, hstep⟩ := run_commands_step fuel env args s1 s2 h hg hfresh hrun
    refine ⟨js2, rest2, h2, hg2, ?_⟩
    intro hm
    rcases hstep n hm with h1 | ⟨h1, h2', h3⟩
    · exact hn h1
    · exact hcond ⟨h1, h2', by rw [h.highest, h3]⟩
  | reap s1 s2 env rets _ hrun ih =>
    intro h0
    obtain ⟨js, rest, h, hg, hn⟩ := ih h0
    obtain ⟨s2', js2, rest2, hrun2, h2, hg2, hsub⟩ := update_list_sub env rets s1 js rest h hg
    rw [hrun] at hrun2
    have e : s2 = s2' := Option.some.inj hrun2
    subst e
    exact ⟨js2, rest2, h2, hg2, fun hm => hn ((hsub.map _).subset hm)⟩

/-- C6: modelling `waitpid(-1, WNOHANG)` as yielding the sequence `rets`, on every
reachable table whose live jobs have pairwise distinct pids `update_list` returns,
having handled the first `k` results: each of them is the pid of a live job, no
two are equal, and result `k`, if there is one, is not the pid of a job in the
table when it is polled (it is no live job's pid, or that job was removed earlier
in this poll) - there the polling stops.  Exactly the jobs with those `k` pids
are removed, the others stay in order with unchanged records, each removed job
is announced in the order polled, and the number of a removed job is not found by
`job_exists` or `get_job_by_num` in any later state reached without a launch
being assigned that number. -/
theorem C6_update_list (s : Shell) (h : Reachable s) (hpids : (s.live.map job.pid).Nodup)
    (env : Env) (rets : List Int) :
    ∃ k s2, k ≤ rets.length ∧ (rets.take k).Nodup ∧
      (∀ p ∈ rets.take k, p ∈ s.live.map job.pid) ∧
      (∀ p, rets.get? k = some p → p ∉ s.live.map job.pid ∨ p ∈ rets.take k) ∧
      update_list env rets s = some s2 ∧
      s2.live = s.live.filter (fun r => decide (r.pid ∉ rets.take k)) ∧
      s2.num_bg_jobs = s.num_bg_jobs - k ∧
      s2.trace = s.trace ++ (rets.take k).filterMap (announce s.live) ∧
      (∀ r ∈ s.live, r.pid ∈ rets.take k → ∀ s3, Avoids r.job_num s2 s3 →
        job_exists r.job_num s3 = some false ∧
        ∀ env3, (get_job_by_num env3 r.job_num s3).map Prod.fst = some none) := by
  obtain ⟨js, rest, hr, hg⟩ := h.inv
  have hlp : s.live.map job.pid = js.map (fun c => c.2.pid) := by
    rw [hr.live_eq, List.map_map]
    rfl
  rw [hlp] at hpids
  obtain ⟨k, s2, rest2, hk, hnd, hmem, hstop, hrun, hr2, hnum2, htr2⟩ :=
    update_list_spec env rets s js rest hr hg hpids
  refine ⟨k, s2, hk, hnd, ?_, ?_, hrun, ?_, hnum2, ?_, ?_⟩
  · rw [hlp]
    exact hmem
  · rw [hlp]
    exact hstop
  · rw [hr2.live_eq, hr.live_eq, List.filter_map]
    rfl
  · rw [hr.live_eq]
    exact htr2
  · intro r hrm hrp s3 hav
    rw [hr.live_eq] at hrm
    obtain ⟨c, hc, rfl⟩ := List.mem_map.1 hrm
    have habs : c.2.job_num ∉
        (js.filter (fun c => decide (c.2.pid ∉ rets.take k))).map (fun c => c.2.job_num) := by
      intro hm
      obtain ⟨d, hd, hdn⟩ := List.mem_map.1 hm
      obtain ⟨hd1, hd2⟩ := List.mem_filter.1 hd
      have e : d = c := List.inj_on_of_nodup_map hg.nums hd1 hc hdn
      subst e
      simp only [decide_eq_true_eq] at hd2
      exact hd2 hrp
    obtain ⟨js3, rest3, hr3, _, hn3⟩ := hav.absent ⟨_, rest2, hr2, hg.of_filter _, habs⟩
    refine ⟨?_, ?_⟩
    · rw [hr3.job_exists_eq, decide_eq_false hn3]
    · intro env3
      rw [hr3.get_job_by_num_absent env3 hn3]
      rfl

theorem C6_update_list_witness :
    Reachable table5 ∧ (table5.live.map job.pid).Nodup ∧
    ∃ k s2, k ≤ sample_rets.length ∧ (List.take k sample_rets).Nodup ∧
      (∀ p ∈ List.take k sample_rets, p ∈ table5.live.map job.pid) ∧
      (∀ p, sample_rets.get? k = some p →
        p ∉ table5.live.map job.pid ∨ p ∈ List.take k sample_rets) ∧
      update_list (demo_env 0 0) sample_rets table5 = some s2 ∧
      s2.live = table5.live.filter
        (fun r => decide (r.pid ∉ List.take k sample_rets)) ∧
      s2.num_bg_jobs = table5.num_bg_jobs - k ∧
      s2.trace = table5.trace
        ++ (List.take k sample_rets).filterMap (announce table5.live) ∧
      (∀ r ∈ table5.live, r.pid ∈ List.take k sample_rets →
        ∀ s3, Avoids r.job_num s2 s3 →
        job_exists r.job_num s3 = some false ∧
        ∀ env3, (get_job_by_num env3 r.job_num s3).map Prod.fst = some none) :=
  ⟨table5_reachable, by decide,
    C6_update_list table5 table5_reachable (by decide) (demo_env 0 0) sample_rets⟩

end BasicShell
